import Mathlib

/-!
Shallow embedding of the FolderChronicle file-sorting engine
(`folderchronicle/core.py` and the scan-failure handling of the worker in
`folderchronicle/app.py`).

Paths are modelled as lists of path segments (absolute, from the root).
The filesystem is modelled as an explicit state: an association list of
regular files (path, metadata) together with a list of existing
directories.  Python's filesystem calls become state-passing functions;
exceptions that the code catches are modelled by an oracle in an
environment record (`Env`), since whether e.g. `shutil.move` raises is an
environment fact, not a program fact.
-/

namespace FolderChronicle

/-- A filesystem path, as its list of segments from the root. -/
abbrev FPath := List String

/-- Metadata of a regular file: `st_mtime` and `st_ctime` timestamps
(seconds, as integers). -/
structure FileData where
  mtime : Int
  ctime : Int
deriving DecidableEq, Repr

/-- Filesystem state: association list of regular files and list of
existing directories. -/
structure FS where
  files : List (FPath × FileData)
  dirs : List FPath
deriving DecidableEq, Repr

/-- Look up the metadata of a regular file: models `Path.stat()` on a
path that is a regular file. -/
def lookupFile (fs : FS) (p : FPath) : Option FileData :=
  (fs.files.find? (fun e => e.1 = p)).map (fun e => e.2)

/-- The path is a regular file (`Path.is_file()`). -/
def isFile (fs : FS) (p : FPath) : Bool :=
  fs.files.any (fun e => e.1 = p)

/-- The path is a directory. -/
def isDir (fs : FS) (p : FPath) : Bool :=
  fs.dirs.any (fun d => d = p)

/-- The path exists (`Path.exists()`): true for files and directories. -/
def pexists (fs : FS) (p : FPath) : Bool :=
  isFile fs p || isDir fs p

/-- Insert (or overwrite) a regular file at `p` with metadata `fd`. -/
def insertFile (fs : FS) (p : FPath) (fd : FileData) : FS :=
  { fs with files := fs.files.filter (fun e => ¬ e.1 = p) ++ [(p, fd)] }

/-- Remove the regular file at `p`. -/
def removeFile (fs : FS) (p : FPath) : FS :=
  { fs with files := fs.files.filter (fun e => ¬ e.1 = p) }

/-- Add the single directory `p` if not present. -/
def addDir (fs : FS) (p : FPath) : FS :=
  if isDir fs p then fs else { fs with dirs := fs.dirs ++ [p] }

/-- The nonempty prefixes of a path, shortest first. -/
def fpathInits (p : FPath) : List FPath :=
  (List.range p.length).map (fun i => p.take (i + 1))

/-- Model of `p.mkdir(parents=True, exist_ok=True)`: create `p` and every
missing ancestor directory. -/
def mkdirParents (fs : FS) (p : FPath) : FS :=
  (fpathInits p).foldl addDir fs

/-- The final segment of a path (`Path.name`). -/
def lastName (p : FPath) : String := p.getLastD ""

/-- Decimal digits of `n`, least significant first, with explicit fuel
(adequate whenever `fuel ≥ n`). -/
def decDigitsAux : Nat → Nat → List Char
  | _, 0 => []
  | 0, _ + 1 => []
  | fuel + 1, n + 1 =>
    Nat.digitChar ((n + 1) % 10) :: decDigitsAux fuel ((n + 1) / 10)

/-- Decimal representation of a natural number, as Python's `str`/number
formatting prints it. -/
def decRepr (n : Nat) : String :=
  if n = 0 then "0" else ⟨(decDigitsAux n n).reverse⟩

/-- Zero-padded decimal formatting, as Python's `f"{n:0wd}"` for
nonnegative `n`. -/
def padZ (w : Nat) (n : Nat) : String :=
  ⟨List.replicate (w - (decRepr n).length) '0' ++ (decRepr n).data⟩

/-- Python `pathlib`'s stem/suffix split of a file name: the suffix starts
at the last dot, provided that dot is neither the first nor the last
character; otherwise the suffix is empty. -/
def splitStemSuffix (name : String) : String × String :=
  let cs := name.data
  let dots := (List.range cs.length).filter (fun i => cs.getD i ' ' = '.')
  match dots.getLast? with
  | some i =>
    if 0 < i ∧ i + 1 < cs.length then (⟨cs.take i⟩, ⟨cs.drop i⟩)
    else (name, "")
  | none => (name, "")

/-- The `i`-th disambiguation candidate `parent / f"{stem} ({i}){suffix}"`
probed by `unique_destination_path`. -/
def candidateAt (par : FPath) (stem sfx : String) (i : Nat) : FPath :=
  par ++ [stem ++ " (" ++ decRepr i ++ ")" ++ sfx]

/-- The probing loop of `unique_destination_path`: try candidates at
`i, i+1, ...` and return the first that does not exist.  The loop is given
fuel; `numPaths fs + 1` steps always suffice (proved below), so the
fuel-exhausted arm is unreachable at the call site. -/
def probeFrom (fs : FS) (par : FPath) (stem sfx : String) : Nat → Nat → FPath
  | 0, i => candidateAt par stem sfx i
  | fuel + 1, i =>
    if pexists fs (candidateAt par stem sfx i) then
      probeFrom fs par stem sfx fuel (i + 1)
    else candidateAt par stem sfx i

/-- Number of existing paths in the filesystem state. -/
def numPaths (fs : FS) : Nat := fs.files.length + fs.dirs.length

/-- Model of `unique_destination_path`: return `dest` if it does not
exist, else append ` (1)`, ` (2)`, ... between stem and suffix until an
unused name is found. -/
def unique_destination_path (fs : FS) (dest : FPath) : FPath :=
  if pexists fs dest then
    let s := splitStemSuffix (lastName dest)
    probeFrom fs dest.dropLast s.1 s.2 (numPaths fs + 1) 1
  else dest

/-- Model of `PurePath.relative_to`: strip `base` from the front of `p`,
or fail (Python raises `ValueError`) when `base` is not a leading part of
`p`.  `p.take base.length = base` is exactly "`base` is a leading part". -/
def relativeTo (base p : FPath) : Option FPath :=
  if p.take base.length = base then some (p.drop base.length) else none

/-- The already-under-`YYYY/MM` test of `gather_files` on the parts of a
relative path: at least 3 segments, the first of length 4 and all digits,
the second of length 2 and all digits.  `Char.isDigit` covers the ASCII
digits; Python's `str.isdigit` accepts those and more, so the set of
skipped files here is a subset of the code's, which only matters for
non-ASCII names. -/
def alreadySorted : List String → Bool
  | p0 :: p1 :: rest =>
    decide (rest.length ≥ 1) && decide (p0.length = 4) &&
      p0.data.all Char.isDigit && decide (p1.length = 2) &&
      p1.data.all Char.isDigit
  | _ => false

/-- Boolean test that `t` is a leading piece of `s`, on the character
lists: the meaning of Python's `str.startswith`. -/
def startsWithStr (s t : String) : Bool :=
  s.data.take t.data.length = t.data

/-- The per-file keep decision of recursive `gather_files` (lines 60-75):
keep when the path is not relative to the base (the `ValueError` branch),
otherwise keep unless already under a `YYYY/MM` structure. -/
def keepFile (base p : FPath) : Bool :=
  match relativeTo base p with
  | none => true
  | some rel => ! alreadySorted rel

/-- Regular-file children of `cur`: the `files_` component of an `os.walk`
entry, as paths. -/
def childFilesList (fs : FS) (cur : FPath) : List FPath :=
  fs.files.filterMap
    (fun e => if e.1 ≠ [] ∧ e.1.dropLast = cur then some e.1 else none)

/-- Directory children of `cur`: the `dirs` component of an `os.walk`
entry, as paths. -/
def childDirsList (fs : FS) (cur : FPath) : List FPath :=
  fs.dirs.filterMap
    (fun d => if d ≠ [] ∧ d.dropLast = cur then some d else none)

/-- The recursive walk of `gather_files` (`os.walk` with top-down pruning):
at each directory, files of that directory are kept subject to
`keepFile`, and traversal descends only into subdirectories whose name
does not start with `"FolderChronicle Backup"`.  Structural fuel bounds
the depth; `maxDirDepth fs + 1` suffices since descending requires the
child to be in `fs.dirs`. -/
def walkGather (fs : FS) (base : FPath) : Nat → FPath → List FPath
  | 0, _ => []
  | fuel + 1, cur =>
    let ds := (childDirsList fs cur).filter
      (fun d => ! startsWithStr (lastName d) "FolderChronicle Backup")
    (childFilesList fs cur).filter (keepFile base) ++
      ds.flatMap (walkGather fs base fuel)

/-- One more than the length of the longest directory path: adequate fuel
for `walkGather`. -/
def maxDirDepth (fs : FS) : Nat :=
  fs.dirs.foldl (fun a d => max a d.length) 0

/-- Model of `base_dir.iterdir()`: the direct children of `base`, files
and directories. -/
def iterdir (fs : FS) (base : FPath) : List FPath :=
  (fs.files.map Prod.fst ++ fs.dirs).filter
    (fun p => p ≠ [] ∧ p.dropLast = base)

/-- Model of `gather_files`: recursive mode walks with pruning and the
already-sorted skip, then keeps regular files; non-recursive mode keeps
the regular files among the direct children of the base directory. -/
def gather_files (fs : FS) (base : FPath) (includeSubdirs : Bool) :
    List FPath :=
  if includeSubdirs then
    (walkGather fs base (maxDirDepth fs + 1) base).filter (isFile fs)
  else
    (iterdir fs base).filter (isFile fs)

/-- A caught Python exception, reduced to what `format_exception` uses:
the class name and the message. -/
structure Exn where
  kind : String
  msg : String
deriving DecidableEq, Repr

/-- Model of `format_exception`: `f"{type(e).__name__}: {e}"`. -/
def format_exception (e : Exn) : String := e.kind ++ ": " ++ e.msg

/-- Oracle for what the environment does to one file's relocation:
everything succeeds; the initial `stat` raises (before any state change);
or the final `copy2`/`move` raises (after the destination directory was
created). -/
inductive FileOutcome where
  | ok : FileOutcome
  | statFail : Exn → FileOutcome
  | moveFail : Exn → FileOutcome
deriving DecidableEq, Repr

/-- Environment of a run: the local-time year/month of a timestamp
(`datetime.fromtimestamp(ts).year/.month`), the `datetime.now()` stamp
used in the backup folder name, and the failure oracles for scanning
(`gather_files` raising), per-file backup copies, and per-file
relocations. -/
structure Env where
  localYM : Int → Nat × Nat
  nowStamp : String
  scanFail : Option Exn
  backupOutcome : FPath → Option Exn
  fileOutcome : FPath → FileOutcome

/-- Model of `SortOptions`. -/
structure SortOptions where
  base_dir : FPath
  include_subdirs : Bool
  use_ctime : Bool
  copy_no_backup : Bool

/-- The exception `shutil.copy2`/`Path.stat` raises when the source file
does not exist. -/
def fileNotFoundExn : Exn :=
  ⟨"FileNotFoundError", "No such file or directory"⟩

/-- Render a path the way `str(Path(...))` does inside log messages. -/
def fpathStr (p : FPath) : String := String.intercalate "/" p

/-- The backup-relative path of a source file: its path relative to the
base directory, or (the `except ValueError` fallback) just its name. -/
def relOf (base src : FPath) : FPath :=
  match relativeTo base src with
  | some r => r
  | none => [lastName src]

/-- State threaded through `_backup_files`: filesystem, error count,
log lines. -/
structure BState where
  fs : FS
  errors : Nat
  logs : List String

/-- One iteration of the `_backup_files` loop for source file `src`:
compute the path relative to the base (falling back to the bare name),
create the parent directories under the backup root, and copy the file
with its metadata.  A failure (oracle, or source missing) increments the
error count and appends the `Backup error` line. -/
def backupStep (env : Env) (base backupRoot : FPath) (st : BState)
    (src : FPath) : BState :=
  let destB := backupRoot ++ relOf base src
  let fs1 := mkdirParents st.fs destB.dropLast
  match env.backupOutcome src with
  | some e =>
    { st with
      fs := fs1
      errors := st.errors + 1
      logs := st.logs ++
        ["Backup error " ++ fpathStr src ++ ": " ++ format_exception e] }
  | none =>
    match lookupFile fs1 src with
    | none =>
      { st with
        fs := fs1
        errors := st.errors + 1
        logs := st.logs ++
          ["Backup error " ++ fpathStr src ++ ": " ++
            format_exception fileNotFoundExn] }
    | some fd =>
      { st with fs := insertFile fs1 destB fd }

/-- Model of `_backup_files`: copy every file into the timestamped backup
folder under the base directory, collecting per-file errors. -/
def backup_files (env : Env) (files : List FPath) (base : FPath)
    (fs : FS) : BState :=
  let backupRoot := base ++ ["FolderChronicle Backup " ++ env.nowStamp]
  files.foldl (backupStep env base backupRoot) ⟨fs, 0, []⟩

/-- State threaded through the relocation loop of `sort_files`. -/
structure SState where
  fs : FS
  moved : Nat
  errors : Nat
  logs : List String
deriving Repr

/-- One iteration of the relocation loop of `sort_files` for source file
`src`: stat the file, derive year and month from the chosen timestamp,
create `base/YYYY/MM`, disambiguate the destination name, then copy (in
copy-mode) or move.  Every failure is caught here and becomes an
`Error moving` log line. -/
def processFile (env : Env) (opts : SortOptions) (st : SState)
    (src : FPath) : SState :=
  match env.fileOutcome src, lookupFile st.fs src with
  | .statFail e, _ =>
    { st with
      errors := st.errors + 1
      logs := st.logs ++
        ["Error moving " ++ lastName src ++ ": " ++ format_exception e] }
  | _, none =>
    { st with
      errors := st.errors + 1
      logs := st.logs ++
        ["Error moving " ++ lastName src ++ ": " ++
          format_exception fileNotFoundExn] }
  | outcome, some fd =>
    let ts := if opts.use_ctime then fd.ctime else fd.mtime
    let ym := env.localYM ts
    let year := padZ 4 ym.1
    let month := padZ 2 ym.2
    let destDir := opts.base_dir ++ [year, month]
    let fs1 := mkdirParents st.fs destDir
    let dest := unique_destination_path fs1 (destDir ++ [lastName src])
    match outcome with
    | .moveFail e =>
      { st with
        fs := fs1
        errors := st.errors + 1
        logs := st.logs ++
          ["Error moving " ++ lastName src ++ ": " ++ format_exception e] }
    | _ =>
      if opts.copy_no_backup then
        { st with
          fs := insertFile fs1 dest fd
          moved := st.moved + 1
          logs := st.logs ++
            ["Copied: " ++ lastName src ++ " -> " ++ year ++ "/" ++
              month ++ "/"] }
      else
        { st with
          fs := insertFile (removeFile fs1 src) dest fd
          moved := st.moved + 1
          logs := st.logs ++
            ["Moved: " ++ lastName src ++ " -> " ++ year ++ "/" ++
              month ++ "/"] }

/-- The body of `sort_files` after a successful scan: empty-candidate
early return, optional backup phase, then the relocation loop. -/
def sortFilesCore (env : Env) (opts : SortOptions) (fs : FS) : SState :=
  let files := gather_files fs opts.base_dir opts.include_subdirs
  if files = [] then ⟨fs, 0, 0, ["No files found."]⟩
  else
    let b : BState :=
      if opts.copy_no_backup then ⟨fs, 0, []⟩
      else backup_files env files opts.base_dir fs
    files.foldl (processFile env opts) ⟨b.fs, 0, b.errors, b.logs⟩

/-- Model of `sort_files`: a raising `gather_files` call propagates out
of the function (nothing is caught around the scan); otherwise the run
is the total `sortFilesCore`. -/
def sort_files (env : Env) (opts : SortOptions) (fs : FS) :
    Except Exn SState :=
  match env.scanFail with
  | some e => .error e
  | none => .ok (sortFilesCore env opts fs)

/-- Outcome the GUI worker (`app.py`, `_worker_sort`) reports. -/
inductive WorkerReport where
  | scanError : String → WorkerReport
  | noFiles : WorkerReport
  | done : Nat → Nat → List String → WorkerReport
deriving DecidableEq, Repr

/-- Model of the worker around the engine (`app.py` lines 168-207): a
scan failure is caught, reported as `Failed to read directory: ...`, and
the worker returns with the filesystem untouched; an empty candidate set
is reported as `noFiles`; otherwise `sort_files` runs. -/
def workerSort (env : Env) (opts : SortOptions) (fs : FS) :
    FS × WorkerReport :=
  match env.scanFail with
  | some e =>
    (fs, .scanError ("Failed to read directory: " ++ format_exception e))
  | none =>
    let files := gather_files fs opts.base_dir opts.include_subdirs
    if files.length = 0 then (fs, .noFiles)
    else
      let r := sortFilesCore env opts fs
      (r.fs, .done r.moved r.errors r.logs)

/-! ## Auxiliary definitions for the verification -/

/-- Value of a little-endian list of decimal digit characters; inverse of
`decDigitsAux` used to prove injectivity of `decRepr`. -/
def valDigits : List Char → Nat
  | [] => 0
  | c :: cs => (c.toNat - 48) + 10 * valDigits cs

/-- Every existing path of the filesystem state, as one list. -/
def allPaths (fs : FS) : List FPath := fs.files.map Prod.fst ++ fs.dirs

/-- Example filesystem for the disambiguation witness: a directory `d`
holding `a.txt` and `a (1).txt`. -/
def exFS2 : FS :=
  ⟨[(["d", "a.txt"], ⟨0, 0⟩), (["d", "a (1).txt"], ⟨0, 0⟩)], [["d"]]⟩

/-- Environment where every filesystem operation succeeds and every
timestamp falls in January 2023 local time. -/
def exEnvOk : Env :=
  ⟨fun _ => (2023, 1), "2023-01-15 12-00-00", none, fun _ => none,
    fun _ => FileOutcome.ok⟩

/-- Non-recursive move-mode options over base directory `b`. -/
def exOptsMove : SortOptions := ⟨["b"], false, false, false⟩

/-- Non-recursive copy-mode options over base directory `b`. -/
def exOptsCopy : SortOptions := ⟨["b"], false, false, true⟩

/-- A base directory `b` holding the single regular file `f.txt`. -/
def exFSone : FS := ⟨[(["b", "f.txt"], ⟨100, 100⟩)], [["b"]]⟩

/-- A base directory `b` holding no files. -/
def exFSempty : FS := ⟨[], [["b"]]⟩

/-- Environment whose scan raises `PermissionError`. -/
def exEnvScanFail : Env :=
  ⟨fun _ => (2023, 1), "2023-01-15 12-00-00",
    some ⟨"PermissionError", "denied"⟩, fun _ => none,
    fun _ => FileOutcome.ok⟩

/-- Environment where every backup copy raises `OSError: disk full` but
relocation succeeds. -/
def exEnvBackupFail : Env :=
  ⟨fun _ => (2023, 1), "2023-01-15 12-00-00", none,
    fun _ => some ⟨"OSError", "disk full"⟩, fun _ => FileOutcome.ok⟩

/-- Environment where every per-file `stat` raises `PermissionError`. -/
def exEnvStatFail : Env :=
  ⟨fun _ => (2023, 1), "2023-01-15 12-00-00", none, fun _ => none,
    fun _ => FileOutcome.statFail ⟨"PermissionError", "denied"⟩⟩

/-- Environment where every per-file move raises `OSError` after the
destination directory has been created. -/
def exEnvMoveFail : Env :=
  ⟨fun _ => (2023, 1), "2023-01-15 12-00-00", none, fun _ => none,
    fun _ => FileOutcome.moveFail ⟨"OSError", "disk full"⟩⟩

/-- Example filesystem for the scanner witnesses: base `b` holding
`sub/f.txt`, an already-sorted `2020/01/x.txt` and a backup folder with a
file in it. -/
def exFSwalk : FS :=
  ⟨[(["b", "sub", "f.txt"], ⟨1, 1⟩),
    (["b", "2020", "01", "x.txt"], ⟨1, 1⟩),
    (["b", "FolderChronicle Backup 1", "y.txt"], ⟨1, 1⟩)],
   [["b"], ["b", "sub"], ["b", "2020"], ["b", "2020", "01"],
    ["b", "FolderChronicle Backup 1"]]⟩

/-- Shape facts every candidate returned by `gather_files` satisfies:
it extends the base directory properly, its relative path does not match
the already-sorted `YYYY/MM` pattern, and none of its intermediate
directory names carries the backup-folder name. -/
def candOK (base p : FPath) : Prop :=
  p.take base.length = base ∧ base.length < p.length ∧
  alreadySorted (p.drop base.length) = false ∧
  ∀ s ∈ (p.drop base.length).dropLast,
    startsWithStr s "FolderChronicle Backup" = false

/-- Shape of every destination the relocation loop writes to:
`base/YYYY/MM/name` with a 4-digit year and 2-digit month segment. -/
def destShaped (base q : FPath) : Prop :=
  ∃ a b nm, q = base ++ [a, b, nm] ∧ a.length = 4 ∧
    a.data.all Char.isDigit = true ∧ b.length = 2 ∧
    b.data.all Char.isDigit = true

/-- The ranges Python's `datetime` guarantees for year and month. -/
def envYMBounded (env : Env) : Prop :=
  ∀ t, 1 ≤ (env.localYM t).1 ∧ (env.localYM t).1 ≤ 9999 ∧
    1 ≤ (env.localYM t).2 ∧ (env.localYM t).2 ≤ 12

/-- Well-formed filesystem state: no path occurs twice. -/
def fsWF (fs : FS) : Prop := (allPaths fs).Nodup

/-- Year/month pair the relocation loop derives for metadata `fd`. -/
def relocYM (env : Env) (opts : SortOptions) (fd : FileData) : Nat × Nat :=
  env.localYM (if opts.use_ctime then fd.ctime else fd.mtime)

/-- Destination directory `base/YYYY/MM` the relocation loop computes for
metadata `fd`. -/
def relocDestDir (env : Env) (opts : SortOptions) (fd : FileData) : FPath :=
  opts.base_dir ++
    [padZ 4 (relocYM env opts fd).1, padZ 2 (relocYM env opts fd).2]

/-- The destination file name is the original name or a disambiguated
`stem (k)suffix` form of it. -/
def nmShape (nm orig : String) : Prop :=
  nm = orig ∨ ∃ k, 1 ≤ k ∧
    nm = (splitStemSuffix orig).1 ++ " (" ++ decRepr k ++ ")" ++
      (splitStemSuffix orig).2

/-! ## Theorems -/

theorem decDigitsAux_zero (fuel : Nat) : decDigitsAux fuel 0 = [] := by
  cases fuel <;> rfl

theorem digitChar_toNat_sub (d : Nat) (h : d < 10) :
    (Nat.digitChar d).toNat - 48 = d := by
  interval_cases d <;> rfl

theorem valDigits_decDigitsAux :
    ∀ fuel n, n ≤ fuel → valDigits (decDigitsAux fuel n) = n := by
  intro fuel
  induction fuel with
  | zero =>
    intro n hn
    interval_cases n
    rfl
  | succ f ih =>
    intro n hn
    match n with
    | 0 => rfl
    | m + 1 =>
      have hdiv : (m + 1) / 10 ≤ f := by
        have h1 : (m + 1) / 10 < m + 1 :=
          Nat.div_lt_self (Nat.succ_pos m) (by norm_num)
        omega
      show valDigits (Nat.digitChar ((m + 1) % 10) ::
        decDigitsAux f ((m + 1) / 10)) = m + 1
      have hmod : (m + 1) % 10 < 10 := Nat.mod_lt _ (by norm_num)
      simp only [valDigits, ih _ hdiv, digitChar_toNat_sub _ hmod]
      omega

theorem valDigits_reverse_decRepr (n : Nat) :
    valDigits (decRepr n).data.reverse = n := by
  by_cases hn : n = 0
  · subst hn
    decide
  · simp only [decRepr, if_neg hn]
    show valDigits (decDigitsAux n n).reverse.reverse = n
    rw [List.reverse_reverse]
    exact valDigits_decDigitsAux n n le_rfl

theorem decRepr_inj {a b : Nat} (h : decRepr a = decRepr b) : a = b := by
  have ha := valDigits_reverse_decRepr a
  rw [h, valDigits_reverse_decRepr b] at ha
  exact ha.symm

theorem candidateAt_inj {par : FPath} {stem sfx : String} {i j : Nat}
    (h : candidateAt par stem sfx i = candidateAt par stem sfx j) :
    i = j := by
  unfold candidateAt at h
  have hname : stem ++ " (" ++ decRepr i ++ ")" ++ sfx =
      stem ++ " (" ++ decRepr j ++ ")" ++ sfx := by
    have := List.append_cancel_left h
    simpa using this
  have hdata := congrArg String.data hname
  simp only [String.data_append, List.append_assoc] at hdata
  have h1 := List.append_cancel_left hdata
  have h2 := List.append_cancel_left h1
  have h3 := List.append_cancel_right h2
  exact decRepr_inj (String.ext h3)

theorem pexists_mem_allPaths {fs : FS} {p : FPath}
    (h : pexists fs p = true) : p ∈ allPaths fs := by
  unfold pexists isFile isDir at h
  rcases Bool.or_eq_true_iff.mp h with hf | hd
  · rcases List.any_eq_true.mp hf with ⟨e, he, heq⟩
    have : e.1 = p := by simpa using heq
    exact List.mem_append.mpr (Or.inl (this ▸ List.mem_map_of_mem Prod.fst he))
  · rcases List.any_eq_true.mp hd with ⟨d, hd', heq⟩
    have : d = p := by simpa using heq
    exact List.mem_append.mpr (Or.inr (this ▸ hd'))

theorem length_allPaths (fs : FS) : (allPaths fs).length = numPaths fs := by
  simp [allPaths, numPaths]

theorem exists_free_candidate (fs : FS) (par : FPath) (stem sfx : String) :
    ∃ k, k < numPaths fs + 1 ∧
      pexists fs (candidateAt par stem sfx (1 + k)) = false := by
  by_contra hcon
  push_neg at hcon
  have hall : ∀ k, k < numPaths fs + 1 →
      pexists fs (candidateAt par stem sfx (1 + k)) = true := by
    intro k hk
    have := hcon k hk
    simpa [Bool.not_eq_false] using this
  have hmaps : ∀ k : Fin (numPaths fs + 1),
      candidateAt par stem sfx (1 + k.val) ∈ (allPaths fs).toFinset := by
    intro k
    exact List.mem_toFinset.mpr (pexists_mem_allPaths (hall k.val k.isLt))
  have hinj : ∀ k₁ ∈ (Finset.univ : Finset (Fin (numPaths fs + 1))),
      ∀ k₂ ∈ (Finset.univ : Finset (Fin (numPaths fs + 1))),
      candidateAt par stem sfx (1 + k₁.val) =
        candidateAt par stem sfx (1 + k₂.val) → k₁ = k₂ := by
    intro k₁ _ k₂ _ heq
    have := candidateAt_inj heq
    exact Fin.ext (by omega)
  have hcard := Finset.card_le_card_of_injOn
    (fun k : Fin (numPaths fs + 1) => candidateAt par stem sfx (1 + k.val))
    (fun k _ => hmaps k) hinj
  have hle : (allPaths fs).toFinset.card ≤ numPaths fs := by
    calc (allPaths fs).toFinset.card ≤ (allPaths fs).length :=
          (allPaths fs).toFinset_card_le
      _ = numPaths fs := length_allPaths fs
  simp [Finset.card_univ] at hcard
  omega

theorem probeFrom_first_free {fs : FS} {par : FPath} {stem sfx : String} :
    ∀ fuel i,
      (∃ k, k < fuel ∧
        pexists fs (candidateAt par stem sfx (i + k)) = false) →
      ∃ j, i ≤ j ∧
        probeFrom fs par stem sfx fuel i = candidateAt par stem sfx j ∧
        pexists fs (candidateAt par stem sfx j) = false ∧
        ∀ l, i ≤ l → l < j →
          pexists fs (candidateAt par stem sfx l) = true := by
  intro fuel
  induction fuel with
  | zero =>
    intro i ⟨k, hk, _⟩
    omega
  | succ f ih =>
    intro i ⟨k, hk, hfree⟩
    by_cases hex : pexists fs (candidateAt par stem sfx i) = true
    · have hk0 : k ≠ 0 := by
        intro h0
        rw [h0, Nat.add_zero] at hfree
        rw [hex] at hfree
        exact Bool.true_eq_false.mp hfree
      have hrec : ∃ k', k' < f ∧
          pexists fs (candidateAt par stem sfx (i + 1 + k')) = false := by
        refine ⟨k - 1, by omega, ?_⟩
        have : i + 1 + (k - 1) = i + k := by omega
        rw [this]
        exact hfree
      obtain ⟨j, hij, heq, hfr, hprev⟩ := ih (i + 1) hrec
      refine ⟨j, by omega, ?_, hfr, ?_⟩
      · show probeFrom fs par stem sfx (f + 1) i = _
        rw [probeFrom, if_pos hex]
        exact heq
      · intro l hl hlj
        rcases Nat.eq_or_lt_of_le hl with hli | hli
        · rw [← hli]; exact hex
        · exact hprev l hli hlj
    · refine ⟨i, le_rfl, ?_, by simpa using hex, by omega⟩
      show probeFrom fs par stem sfx (f + 1) i = _
      rw [probeFrom, if_neg hex]

/-- C2: for every existing path, `unique_destination_path` returns a path
that does not exist at call time, and it is the first free candidate
`name (j).ext` probed in the same parent directory in increasing order
starting at 1 (every earlier candidate exists); for every non-existing
path it returns the path unchanged. -/
theorem unique_destination_path_spec (fs : FS) (dest : FPath) :
    (pexists fs dest = false → unique_destination_path fs dest = dest) ∧
    (pexists fs dest = true →
      pexists fs (unique_destination_path fs dest) = false ∧
      ∃ j, 1 ≤ j ∧
        unique_destination_path fs dest =
          candidateAt dest.dropLast (splitStemSuffix (lastName dest)).1
            (splitStemSuffix (lastName dest)).2 j ∧
        ∀ l, 1 ≤ l → l < j →
          pexists fs (candidateAt dest.dropLast
            (splitStemSuffix (lastName dest)).1
            (splitStemSuffix (lastName dest)).2 l) = true) := by
  constructor
  · intro h
    unfold unique_destination_path
    rw [h]
    rfl
  · intro h
    obtain ⟨k, hk, hfree⟩ := exists_free_candidate fs dest.dropLast
      (splitStemSuffix (lastName dest)).1 (splitStemSuffix (lastName dest)).2
    have hprobe := @probeFrom_first_free fs dest.dropLast
      (splitStemSuffix (lastName dest)).1
      (splitStemSuffix (lastName dest)).2
      (numPaths fs + 1) 1 ⟨k, hk, hfree⟩
    obtain ⟨j, hij, heq, hfr, hprev⟩ := hprobe
    have hu : unique_destination_path fs dest =
        probeFrom fs dest.dropLast (splitStemSuffix (lastName dest)).1
          (splitStemSuffix (lastName dest)).2 (numPaths fs + 1) 1 := by
      simp [unique_destination_path, h]
    constructor
    · rw [hu, heq]
      exact hfr
    · exact ⟨j, hij, by rw [hu]; exact heq, hprev⟩

/-- Witness for C2: in a directory holding `a.txt` and `a (1).txt`, the
input `d/a.txt` exists, the returned path does not, and it is concretely
`d/a (2).txt`. -/
theorem unique_destination_path_spec_witness :
    pexists exFS2 ["d", "a.txt"] = true ∧
    pexists exFS2 (unique_destination_path exFS2 ["d", "a.txt"]) = false ∧
    unique_destination_path exFS2 ["d", "a.txt"] = ["d", "a (2).txt"] :=
  ⟨by decide,
   ((unique_destination_path_spec exFS2 ["d", "a.txt"]).2 (by decide)).1,
   by decide⟩

/-- C8: whenever the scan yields zero candidate files, `sort_files`
terminates immediately with zero counts, a log consisting of exactly the
sentinel line, and a completely unchanged filesystem (so no directory is
created and no backup is made). -/
theorem sort_files_no_candidates (env : Env) (opts : SortOptions) (fs : FS)
    (hscan : env.scanFail = none)
    (hempty : gather_files fs opts.base_dir opts.include_subdirs = []) :
    sort_files env opts fs = Except.ok ⟨fs, 0, 0, ["No files found."]⟩ := by
  unfold sort_files
  rw [hscan]
  unfold sortFilesCore
  rw [hempty]
  rfl

/-- Witness for C8: an empty base directory yields the sentinel result
with the filesystem untouched. -/
theorem sort_files_no_candidates_witness :
    sort_files exEnvOk exOptsMove exFSempty =
      Except.ok ⟨exFSempty, 0, 0, ["No files found."]⟩ :=
  sort_files_no_candidates exEnvOk exOptsMove exFSempty rfl (by decide)

/-- C5: when the scan itself fails, `sort_files` terminates immediately
by propagating the failure (no backup or relocation happens), and the
worker around the engine catches it and reports the run as failed, with
the filesystem unchanged and nothing moved. -/
theorem scan_failure_fatal (env : Env) (opts : SortOptions) (fs : FS)
    (e : Exn) (h : env.scanFail = some e) :
    sort_files env opts fs = Except.error e ∧
    workerSort env opts fs =
      (fs, WorkerReport.scanError
        ("Failed to read directory: " ++ format_exception e)) := by
  unfold sort_files workerSort
  rw [h]
  exact ⟨rfl, rfl⟩

/-- Witness for C5: a `PermissionError` while scanning is reported as a
failed run over an untouched filesystem. -/
theorem scan_failure_fatal_witness :
    sort_files exEnvScanFail exOptsMove exFSone =
      Except.error ⟨"PermissionError", "denied"⟩ ∧
    workerSort exEnvScanFail exOptsMove exFSone =
      (exFSone, WorkerReport.scanError
        "Failed to read directory: PermissionError: denied") :=
  scan_failure_fatal exEnvScanFail exOptsMove exFSone
    ⟨"PermissionError", "denied"⟩ rfl

/-- Helper: a `statFail` outcome makes `processFile` record the error and
touch nothing else. -/
theorem processFile_statFail (env : Env) (opts : SortOptions) (st : SState)
    (src : FPath) (e : Exn) (h : env.fileOutcome src = FileOutcome.statFail e) :
    processFile env opts st src =
      ⟨st.fs, st.moved, st.errors + 1,
        st.logs ++
          ["Error moving " ++ lastName src ++ ": " ++ format_exception e]⟩ := by
  unfold processFile
  rw [h]
  cases lookupFile st.fs src <;> rfl

/-- Helper: a `moveFail` outcome on a present source file makes
`processFile` record the error, after having created the destination
directory. -/
theorem processFile_moveFail (env : Env) (opts : SortOptions) (st : SState)
    (src : FPath) (e : Exn) (fd : FileData)
    (h : env.fileOutcome src = FileOutcome.moveFail e)
    (hfd : lookupFile st.fs src = some fd) :
    processFile env opts st src =
      ⟨mkdirParents st.fs (opts.base_dir ++
          [padZ 4 (env.localYM (if opts.use_ctime then fd.ctime else fd.mtime)).1,
           padZ 2 (env.localYM (if opts.use_ctime then fd.ctime else fd.mtime)).2]),
        st.moved, st.errors + 1,
        st.logs ++
          ["Error moving " ++ lastName src ++ ": " ++ format_exception e]⟩ := by
  unfold processFile
  rw [h, hfd]

/-- C6: per-file relocation failures are isolated.  Given a successful
scan, `sort_files` always returns a result (no exception escapes the
per-file loop); a failure at the initial `stat` or at the final move of a
file increments the error counter and appends a log line of the exact
form `Error moving <name>: <ExceptionKind>: <message>` while leaving the
rest of the state as it was; and the loop then continues with the
remaining files. -/
theorem per_file_errors_isolated (env : Env) (opts : SortOptions) :
    (∀ fs, env.scanFail = none →
      ∃ r, sort_files env opts fs = Except.ok r) ∧
    (∀ st src e, env.fileOutcome src = FileOutcome.statFail e →
      processFile env opts st src =
        ⟨st.fs, st.moved, st.errors + 1,
          st.logs ++
            ["Error moving " ++ lastName src ++ ": " ++
              format_exception e]⟩) ∧
    (∀ st src e fd, env.fileOutcome src = FileOutcome.moveFail e →
      lookupFile st.fs src = some fd →
      ∃ fs1, processFile env opts st src =
        ⟨fs1, st.moved, st.errors + 1,
          st.logs ++
            ["Error moving " ++ lastName src ++ ": " ++
              format_exception e]⟩) ∧
    (∀ st src rest, List.foldl (processFile env opts) st (src :: rest) =
      List.foldl (processFile env opts) (processFile env opts st src) rest) := by
  refine ⟨?_, ?_, ?_, ?_⟩
  · intro fs h
    refine ⟨sortFilesCore env opts fs, ?_⟩
    unfold sort_files
    rw [h]
  · intro st src e h
    exact processFile_statFail env opts st src e h
  · intro st src e fd h hfd
    exact ⟨_, processFile_moveFail env opts st src e fd h hfd⟩
  · intro st src rest
    rfl

/-- Witness for C6: with an environment whose `stat` calls fail with
`PermissionError`, the loop records the exact log line and the run still
returns normally. -/
theorem per_file_errors_isolated_witness :
    (∃ r, sort_files exEnvStatFail exOptsMove exFSone = Except.ok r) ∧
    processFile exEnvStatFail exOptsMove ⟨exFSone, 0, 0, []⟩ ["b", "f.txt"] =
      ⟨exFSone, 0, 1, ["Error moving f.txt: PermissionError: denied"]⟩ :=
  ⟨(per_file_errors_isolated exEnvStatFail exOptsMove).1 exFSone rfl,
   (per_file_errors_isolated exEnvStatFail exOptsMove).2.1
     ⟨exFSone, 0, 0, []⟩ ["b", "f.txt"] ⟨"PermissionError", "denied"⟩ rfl⟩

/-- Helper: every iteration of the relocation loop increments exactly one
of the two counters. -/
theorem processFile_moved_errors (env : Env) (opts : SortOptions)
    (st : SState) (src : FPath) :
    (processFile env opts st src).moved + (processFile env opts st src).errors =
      st.moved + st.errors + 1 := by
  unfold processFile
  cases h : env.fileOutcome src <;> cases h2 : lookupFile st.fs src <;>
    (try split_ifs) <;> (try simp) <;> omega

/-- Helper: over the whole relocation loop, successes plus failures equal
the number of files processed. -/
theorem foldl_moved_errors (env : Env) (opts : SortOptions) :
    ∀ (files : List FPath) (st : SState),
      (List.foldl (processFile env opts) st files).moved +
        (List.foldl (processFile env opts) st files).errors =
      st.moved + st.errors + files.length := by
  intro files
  induction files with
  | nil => intro st; simp
  | cons f rest ih =>
    intro st
    rw [List.foldl_cons, ih]
    have := processFile_moved_errors env opts st f
    simp only [List.length_cons]
    omega

/-- Counterexample for C7: one candidate file whose backup copy fails but
whose relocation succeeds; `sort_files` returns succeeded = 1 and
failed = 1, so the counts sum to 2 over a single attempted file. -/
theorem sort_files_counts_counterexample :
    sort_files exEnvBackupFail exOptsMove exFSone =
      Except.ok (sortFilesCore exEnvBackupFail exOptsMove exFSone) ∧
    (gather_files exFSone ["b"] false).length = 1 ∧
    (sortFilesCore exEnvBackupFail exOptsMove exFSone).moved +
      (sortFilesCore exEnvBackupFail exOptsMove exFSone).errors = 2 :=
  ⟨rfl, by decide, by decide⟩

/-- C7 (amended): the counts returned by `sort_files` sum to the number
of candidate files attempted in the relocation phase plus the number of
backup-phase failures; restricted to the relocation phase itself,
successes plus failures cover the candidates exactly. -/
theorem sort_files_counts (env : Env) (opts : SortOptions) (fs : FS)
    (r : SState) (hscan : env.scanFail = none)
    (hr : sort_files env opts fs = Except.ok r)
    (hne : gather_files fs opts.base_dir opts.include_subdirs ≠ []) :
    r.moved + r.errors =
      (gather_files fs opts.base_dir opts.include_subdirs).length +
        (if opts.copy_no_backup then 0
         else (backup_files env
            (gather_files fs opts.base_dir opts.include_subdirs)
            opts.base_dir fs).errors) := by
  have hcore : r = sortFilesCore env opts fs := by
    unfold sort_files at hr
    rw [hscan] at hr
    exact (Except.ok.inj hr).symm
  subst hcore
  unfold sortFilesCore
  rw [if_neg hne]
  rw [foldl_moved_errors]
  cases hc : opts.copy_no_backup <;> simp [hc]
  all_goals omega

/-- Witness for C7's amended theorem: the counterexample run satisfies
moved + errors = candidates + backup failures = 1 + 1. -/
theorem sort_files_counts_witness :
    (sortFilesCore exEnvBackupFail exOptsMove exFSone).moved +
      (sortFilesCore exEnvBackupFail exOptsMove exFSone).errors =
    (gather_files exFSone ["b"] false).length +
      (if exOptsMove.copy_no_backup then 0
       else (backup_files exEnvBackupFail
          (gather_files exFSone ["b"] false) ["b"] exFSone).errors) :=
  sort_files_counts exEnvBackupFail exOptsMove exFSone
    (sortFilesCore exEnvBackupFail exOptsMove exFSone) rfl rfl (by decide)

/-- Helper: a nonempty path is its parent plus its final name. -/
theorem dropLast_append_lastName {d : FPath} (h : d ≠ []) :
    d.dropLast ++ [lastName d] = d := by
  unfold lastName
  rw [List.getLastD_eq_getLast?, List.getLast?_eq_getLast d h]
  simp [List.dropLast_append_getLast]

/-- Helper: every file the recursive walk returns passed the
`keepFile` check, is nonempty, and sits under the walk root with every
intermediate directory name having survived the backup-folder pruning. -/
theorem walkGather_mem {fs : FS} {base : FPath} :
    ∀ fuel cur p, p ∈ walkGather fs base fuel cur →
      keepFile base p = true ∧ p ≠ [] ∧
      ∃ mid, p.dropLast = cur ++ mid ∧
        ∀ s ∈ mid, startsWithStr s "FolderChronicle Backup" = false := by
  intro fuel
  induction fuel with
  | zero => intro cur p hp; simp [walkGather] at hp
  | succ f ih =>
    intro cur p hp
    simp only [walkGather] at hp
    rcases List.mem_append.mp hp with h1 | h2
    · obtain ⟨hmem, hkeep⟩ := List.mem_filter.mp h1
      obtain ⟨e, _, he⟩ := List.mem_filterMap.mp hmem
      refine ⟨hkeep, ?_, [], ?_, by simp⟩
      · by_cases hc : e.1 ≠ [] ∧ e.1.dropLast = cur
        · rw [if_pos hc] at he
          cases he
          exact hc.1
        · rw [if_neg hc] at he
          cases he
      · by_cases hc : e.1 ≠ [] ∧ e.1.dropLast = cur
        · rw [if_pos hc] at he
          cases he
          simpa using hc.2
        · rw [if_neg hc] at he
          cases he
    · obtain ⟨d, hd, hpd⟩ := List.mem_flatMap.mp h2
      obtain ⟨hdmem, hdok⟩ := List.mem_filter.mp hd
      obtain ⟨d0, _, hd0⟩ := List.mem_filterMap.mp hdmem
      have hdd : d ≠ [] ∧ d.dropLast = cur := by
        by_cases hc : d0 ≠ [] ∧ d0.dropLast = cur
        · rw [if_pos hc] at hd0
          cases hd0
          exact hc
        · rw [if_neg hc] at hd0
          cases hd0
      obtain ⟨hkeep, hne, mid, hmid, hmidok⟩ := ih d p hpd
      refine ⟨hkeep, hne, lastName d :: mid, ?_, ?_⟩
      · have hd2 : d = cur ++ [lastName d] := by
          conv_lhs => rw [← dropLast_append_lastName hdd.1]
          rw [hdd.2]
        rw [hmid]
        conv_lhs => rw [hd2]
        simp
      · intro s hs
        rcases List.mem_cons.mp hs with hs1 | hs2
        · subst hs1
          simpa using hdok
        · exact hmidok s hs2

/-- C3: recursive `gather_files` never returns a file whose path relative
to the base directory has at least 3 segments with the first being
exactly 4 ASCII digits and the second exactly 2 ASCII digits; and the
keep decision always includes a file whose path cannot be expressed
relative to the base directory. -/
theorem gather_files_skips_sorted (fs : FS) (base : FPath) :
    (∀ p ∈ gather_files fs base true, ∀ rel, relativeTo base p = some rel →
      ¬ ∃ p0 p1 rest, rel = p0 :: p1 :: rest ∧ 1 ≤ rest.length ∧
        p0.length = 4 ∧ p0.data.all Char.isDigit = true ∧
        p1.length = 2 ∧ p1.data.all Char.isDigit = true) ∧
    (∀ p, relativeTo base p = none → keepFile base p = true) := by
  constructor
  · intro p hp rel hrel hpat
    obtain ⟨p0, p1, rest, hrest, hlen, h04, h0d, h12, h1d⟩ := hpat
    have hmem : p ∈ walkGather fs base (maxDirDepth fs + 1) base := by
      unfold gather_files at hp
      rw [if_pos rfl] at hp
      exact (List.mem_filter.mp hp).1
    obtain ⟨hkeep, -, -⟩ := walkGather_mem (maxDirDepth fs + 1) base p hmem
    unfold keepFile at hkeep
    rw [hrel] at hkeep
    have hsorted : alreadySorted rel = true := by
      subst hrest
      unfold alreadySorted
      simp [hlen, h04, h0d, h12, h1d]
    simp [hsorted] at hkeep
  · intro p hrel
    unfold keepFile
    rw [hrel]

/-- Witness for C3: in a base directory holding `sub/f.txt`,
`2020/01/x.txt` and a backup folder, the returned file `sub/f.txt` indeed
fails the already-sorted pattern. -/
theorem gather_files_skips_sorted_witness :
    (¬ ∃ p0 p1 rest, (["sub", "f.txt"] : List String) = p0 :: p1 :: rest ∧
      1 ≤ rest.length ∧
      p0.length = 4 ∧ p0.data.all Char.isDigit = true ∧
      p1.length = 2 ∧ p1.data.all Char.isDigit = true) ∧
    keepFile ["b"] ["x", "y.txt"] = true :=
  ⟨(gather_files_skips_sorted exFSwalk ["b"]).1 ["b", "sub", "f.txt"]
      (by decide) ["sub", "f.txt"] (by decide),
   (gather_files_skips_sorted exFSwalk ["b"]).2 ["x", "y.txt"] (by decide)⟩

/-- C4: recursive `gather_files` never returns a file lying under a
directory whose name starts with `FolderChronicle Backup`: every
directory segment of the returned path below the base directory fails
that test. -/
theorem gather_files_prunes_backup (fs : FS) (base : FPath) :
    ∀ p ∈ gather_files fs base true,
      ∀ s ∈ (p.drop base.length).dropLast,
        startsWithStr s "FolderChronicle Backup" = false := by
  intro p hp s hs
  have hmem : p ∈ walkGather fs base (maxDirDepth fs + 1) base := by
    unfold gather_files at hp
    rw [if_pos rfl] at hp
    exact (List.mem_filter.mp hp).1
  obtain ⟨-, hne, mid, hmid, hmidok⟩ :=
    walkGather_mem (maxDirDepth fs + 1) base p hmem
  have hp2 : p = base ++ (mid ++ [lastName p]) := by
    conv_lhs => rw [← dropLast_append_lastName hne]
    rw [hmid, List.append_assoc]
  rw [hp2] at hs
  rw [List.drop_left] at hs
  rw [List.dropLast_concat] at hs
  exact hmidok s hs

/-- Witness for C4: the directory segment `sub` of the returned file
`b/sub/f.txt` does not carry the backup-folder name. -/
theorem gather_files_prunes_backup_witness :
    startsWithStr "sub" "FolderChronicle Backup" = false :=
  gather_files_prunes_backup exFSwalk ["b"] ["b", "sub", "f.txt"]
    (by decide) "sub" (by decide)

/-- Helper: with no fuel, `decDigitsAux` is empty. -/
theorem decDigitsAux_fuel_zero (n : Nat) : decDigitsAux 0 n = [] := by
  cases n <;> rfl

/-- Helper: digit characters produced by `decDigitsAux` are ASCII digits. -/
theorem decDigitsAux_all_digits :
    ∀ fuel n, ∀ c ∈ decDigitsAux fuel n, c.isDigit = true := by
  intro fuel
  induction fuel with
  | zero => intro n c hc; rw [decDigitsAux_fuel_zero] at hc; simp at hc
  | succ f ih =>
    intro n c hc
    match n with
    | 0 => simp [decDigitsAux] at hc
    | m + 1 =>
      rw [decDigitsAux] at hc
      rcases List.mem_cons.mp hc with h1 | h2
      · subst h1
        have : (m + 1) % 10 < 10 := Nat.mod_lt _ (by norm_num)
        revert this
        generalize (m + 1) % 10 = d
        intro hd
        interval_cases d <;> rfl
      · exact ih _ c h2

/-- Helper: the decimal representation consists of ASCII digits only. -/
theorem decRepr_all_digits (n : Nat) :
    (decRepr n).data.all Char.isDigit = true := by
  by_cases hn : n = 0
  · subst hn; rfl
  · simp only [decRepr, if_neg hn]
    rw [List.all_eq_true]
    intro c hc
    show c.isDigit = true
    exact decDigitsAux_all_digits n n c (List.mem_reverse.mp hc)

/-- Helper: length bound for `decDigitsAux`. -/
theorem decDigitsAux_length_le :
    ∀ fuel n k, n < 10 ^ k → (decDigitsAux fuel n).length ≤ k := by
  intro fuel
  induction fuel with
  | zero => intro n k _; rw [decDigitsAux_fuel_zero]; simp
  | succ f ih =>
    intro n k hk
    match n with
    | 0 => simp [decDigitsAux]
    | m + 1 =>
      match k with
      | 0 => omega
      | j + 1 =>
        rw [decDigitsAux]
        simp only [List.length_cons]
        have hdiv : (m + 1) / 10 < 10 ^ j := by
          rw [Nat.div_lt_iff_lt_mul (by norm_num)]
          calc m + 1 < 10 ^ (j + 1) := hk
            _ = 10 ^ j * 10 := by ring
        have := ih ((m + 1) / 10) j hdiv
        omega

/-- Helper: length bound for `decRepr`. -/
theorem decRepr_length_le {n k : Nat} (hk : 1 ≤ k) (h : n < 10 ^ k) :
    (decRepr n).length ≤ k := by
  by_cases hn : n = 0
  · subst hn
    show ("0" : String).length ≤ k
    simpa using hk
  · simp only [decRepr, if_neg hn]
    rw [String.length_mk, List.length_reverse]
    exact decDigitsAux_length_le n n k h

/-- Helper: `padZ` produces exactly `w` characters when the bare
representation fits. -/
theorem padZ_length {w n : Nat} (h : (decRepr n).length ≤ w) :
    (padZ w n).length = w := by
  unfold padZ
  rw [String.length_mk, List.length_append, List.length_replicate]
  have : (decRepr n).data.length = (decRepr n).length := rfl
  omega

/-- Helper: `padZ` produces ASCII digits only. -/
theorem padZ_all_digits (w n : Nat) :
    (padZ w n).data.all Char.isDigit = true := by
  unfold padZ
  rw [List.all_eq_true]
  intro c hc
  rcases List.mem_append.mp hc with h1 | h2
  · have := List.eq_of_mem_replicate h1
    subst this
    rfl
  · exact List.all_eq_true.mp (decRepr_all_digits n) c h2

/-- Helper: a destination-shaped path has a relative part that matches
the already-sorted pattern. -/
theorem alreadySorted_of_destShaped {base q : FPath}
    (h : destShaped base q) :
    alreadySorted (q.drop base.length) = true := by
  obtain ⟨a, b, nm, hq, h4, had, h2, hbd⟩ := h
  subst hq
  rw [List.drop_left]
  unfold alreadySorted
  simp [h4, had, h2, hbd]

/-- Helper: a candidate path is never destination-shaped. -/
theorem candOK_ne_destShaped {base p q : FPath}
    (hp : candOK base p) (hq : destShaped base q) : p ≠ q := by
  intro heq
  subst heq
  have h1 := hp.2.2.1
  rw [alreadySorted_of_destShaped hq] at h1
  exact Bool.true_eq_false.mp h1

/-- Helper: `addDir` never changes the file table. -/
theorem addDir_files (fs : FS) (p : FPath) : (addDir fs p).files = fs.files := by
  unfold addDir
  split <;> rfl

/-- Helper: a fold of `addDir` never changes the file table. -/
theorem foldl_addDir_files :
    ∀ (l : List FPath) (fs : FS), (l.foldl addDir fs).files = fs.files := by
  intro l
  induction l with
  | nil => intro fs; rfl
  | cons a t ih => intro fs; rw [List.foldl_cons, ih, addDir_files]

/-- Helper: `mkdirParents` never changes the file table. -/
theorem mkdirParents_files (fs : FS) (p : FPath) :
    (mkdirParents fs p).files = fs.files :=
  foldl_addDir_files (fpathInits p) fs

/-- Helper: `addDir` keeps every existing directory. -/
theorem addDir_dirs_mono {fs : FS} {d : FPath} (p : FPath)
    (h : d ∈ fs.dirs) : d ∈ (addDir fs p).dirs := by
  unfold addDir
  split
  · exact h
  · exact List.mem_append.mpr (Or.inl h)

/-- Helper: `addDir` establishes its own directory. -/
theorem addDir_mem_self (fs : FS) (p : FPath) : p ∈ (addDir fs p).dirs := by
  unfold addDir
  split
  · rename_i h
    unfold isDir at h
    obtain ⟨d, hd, hdp⟩ := List.any_eq_true.mp h
    have : d = p := by simpa using hdp
    exact this ▸ hd
  · simp

/-- Helper: a fold of `addDir` keeps every existing directory. -/
theorem foldl_addDir_dirs_mono :
    ∀ (l : List FPath) (fs : FS) (d : FPath),
      d ∈ fs.dirs → d ∈ (l.foldl addDir fs).dirs := by
  intro l
  induction l with
  | nil => intro fs d h; exact h
  | cons a t ih =>
    intro fs d h
    rw [List.foldl_cons]
    exact ih (addDir fs a) d (addDir_dirs_mono a h)

/-- Helper: `mkdirParents` keeps every existing directory. -/
theorem mkdirParents_dirs_mono {fs : FS} {d : FPath} (p : FPath)
    (h : d ∈ fs.dirs) : d ∈ (mkdirParents fs p).dirs :=
  foldl_addDir_dirs_mono (fpathInits p) fs d h

/-- Helper: `mkdirParents` establishes the requested directory. -/
theorem mkdirParents_mem_self (fs : FS) {p : FPath} (h : p ≠ []) :
    p ∈ (mkdirParents fs p).dirs := by
  unfold mkdirParents
  have hlen : p.length = (p.length - 1) + 1 := by
    have : 0 < p.length := List.length_pos.mpr h
    omega
  have hsplit : fpathInits p =
      ((List.range (p.length - 1)).map (fun i => p.take (i + 1))) ++ [p] := by
    unfold fpathInits
    conv_lhs => rw [hlen]
    rw [List.range_succ, List.map_append]
    simp [← hlen]
  rw [hsplit, List.foldl_append]
  exact addDir_mem_self _ p

/-- Helper: `find?` over the entries surviving the removal of `p` agrees
with `find?` over the original entries, for any other path. -/
theorem find?_filter_ne {p q : FPath} (h : q ≠ p) :
    ∀ l : List (FPath × FileData),
      (l.filter (fun e => ¬ e.1 = p)).find? (fun e => e.1 = q) =
        l.find? (fun e => e.1 = q) := by
  intro l
  induction l with
  | nil => rfl
  | cons e t ih =>
    by_cases he : e.1 = p
    · have h1 : (e :: t).filter (fun e => ¬ e.1 = p) =
          t.filter (fun e => ¬ e.1 = p) := by
        rw [List.filter_cons]
        simp [he]
      have h2 : (e :: t).find? (fun e => e.1 = q) =
          t.find? (fun e => e.1 = q) := by
        rw [List.find?_cons]
        have : ¬ e.1 = q := by rw [he]; exact fun hh => h hh.symm
        simp [this]
      rw [h1, h2, ih]
    · rw [List.filter_cons, if_pos (by simpa using he)]
      by_cases heq : e.1 = q
      · rw [List.find?_cons, List.find?_cons]
        simp [heq]
      · have hd : (decide (e.1 = q)) = false := by simp [heq]
        rw [List.find?_cons, List.find?_cons]
        simp only [hd, Bool.false_eq_true, if_false]
        exact ih

/-- Helper: looking up a path other than the inserted one is unchanged. -/
theorem lookupFile_insertFile_ne (fs : FS) (p : FPath) (fd : FileData)
    {q : FPath} (h : q ≠ p) :
    lookupFile (insertFile fs p fd) q = lookupFile fs q := by
  unfold lookupFile insertFile
  simp only []
  rw [List.find?_append]
  have hlast : ([(p, fd)].find? (fun e => e.1 = q)) = none := by
    simp [Ne.symm h]
  rw [find?_filter_ne h, hlast]
  cases fs.files.find? (fun e => e.1 = q) <;> rfl

/-- Helper: looking up a path other than the removed one is unchanged. -/
theorem lookupFile_removeFile_ne (fs : FS) (p : FPath) {q : FPath}
    (h : q ≠ p) :
    lookupFile (removeFile fs p) q = lookupFile fs q := by
  unfold lookupFile removeFile
  simp only []
  rw [find?_filter_ne h]

/-- Helper: a file is present exactly when its lookup succeeds. -/
theorem isFile_eq_isSome_lookupFile (fs : FS) (q : FPath) :
    isFile fs q = (lookupFile fs q).isSome := by
  unfold isFile lookupFile
  cases hfind : fs.files.find? (fun e => e.1 = q) with
  | none =>
    simp only [hfind, Option.map_none', Option.isSome_none]
    rw [Bool.eq_false_iff]
    intro hc
    obtain ⟨e, he, hq⟩ := List.any_eq_true.mp hc
    exact absurd hq (by simpa using List.find?_eq_none.mp hfind e he)
  | some e =>
    simp only [hfind, Option.map_some', Option.isSome_some]
    rw [List.any_eq_true]
    refine ⟨e, List.mem_of_find?_eq_some hfind, ?_⟩
    exact @List.find?_some _ (fun x : FPath × FileData => decide (x.1 = q))
      _ _ hfind

/-- Helper: the inserted file is present. -/
theorem isFile_insertFile_self (fs : FS) (p : FPath) (fd : FileData) :
    isFile (insertFile fs p fd) p = true := by
  unfold isFile insertFile
  rw [List.any_eq_true]
  exact ⟨(p, fd), List.mem_append.mpr (Or.inr (by simp)), by simp⟩

/-- Helper: presence of another path is unchanged by insertion. -/
theorem isFile_insertFile_ne (fs : FS) (p : FPath) (fd : FileData)
    {q : FPath} (h : q ≠ p) :
    isFile (insertFile fs p fd) q = isFile fs q := by
  rw [isFile_eq_isSome_lookupFile, isFile_eq_isSome_lookupFile,
    lookupFile_insertFile_ne fs p fd h]

/-- Helper: the removed file is gone. -/
theorem isFile_removeFile_self (fs : FS) (p : FPath) :
    isFile (removeFile fs p) p = false := by
  unfold isFile removeFile
  simp only []
  rw [Bool.eq_false_iff]
  intro hc
  obtain ⟨e, he, hep⟩ := List.any_eq_true.mp hc
  have h1 := (List.mem_filter.mp he).2
  have h2 : e.1 = p := by simpa using hep
  simp [h2] at h1

/-- Helper: presence of another path is unchanged by removal. -/
theorem isFile_removeFile_ne (fs : FS) (p : FPath) {q : FPath}
    (h : q ≠ p) :
    isFile (removeFile fs p) q = isFile fs q := by
  rw [isFile_eq_isSome_lookupFile, isFile_eq_isSome_lookupFile,
    lookupFile_removeFile_ne fs p h]

/-- Helper: `insertFile` and `removeFile` leave the directories alone. -/
theorem insertFile_dirs (fs : FS) (p : FPath) (fd : FileData) :
    (insertFile fs p fd).dirs = fs.dirs := rfl

/-- Helper: `removeFile` leaves the directories alone. -/
theorem removeFile_dirs (fs : FS) (p : FPath) :
    (removeFile fs p).dirs = fs.dirs := rfl

/-- Helper: `mkdirParents` changes no lookup. -/
theorem lookupFile_mkdirParents (fs : FS) (p q : FPath) :
    lookupFile (mkdirParents fs p) q = lookupFile fs q := by
  unfold lookupFile
  rw [mkdirParents_files]

/-- Helper: `mkdirParents` changes no file presence. -/
theorem isFile_mkdirParents (fs : FS) (p q : FPath) :
    isFile (mkdirParents fs p) q = isFile fs q := by
  unfold isFile
  rw [mkdirParents_files]

/-- Helper: the probing loop always returns some candidate with index at
least its starting index. -/
theorem probeFrom_shape (fs : FS) (par : FPath) (stem sfx : String) :
    ∀ fuel i, ∃ j, i ≤ j ∧
      probeFrom fs par stem sfx fuel i = candidateAt par stem sfx j := by
  intro fuel
  induction fuel with
  | zero => intro i; exact ⟨i, le_rfl, rfl⟩
  | succ f ih =>
    intro i
    by_cases hex : pexists fs (candidateAt par stem sfx i) = true
    · obtain ⟨j, hij, heq⟩ := ih (i + 1)
      refine ⟨j, by omega, ?_⟩
      show probeFrom fs par stem sfx (f + 1) i = _
      rw [probeFrom, if_pos hex]
      exact heq
    · refine ⟨i, le_rfl, ?_⟩
      show probeFrom fs par stem sfx (f + 1) i = _
      rw [probeFrom, if_neg hex]

/-- Helper: the result of `unique_destination_path` never exists. -/
theorem unique_destination_path_free (fs : FS) (d : FPath) :
    pexists fs (unique_destination_path fs d) = false := by
  by_cases h : pexists fs d = true
  · obtain ⟨k, hk, hfree⟩ := exists_free_candidate fs d.dropLast
      (splitStemSuffix (lastName d)).1 (splitStemSuffix (lastName d)).2
    obtain ⟨j, _, heq, hfr, _⟩ := @probeFrom_first_free fs d.dropLast
      (splitStemSuffix (lastName d)).1
      (splitStemSuffix (lastName d)).2
      (numPaths fs + 1) 1 ⟨k, hk, hfree⟩
    have hu : unique_destination_path fs d =
        probeFrom fs d.dropLast (splitStemSuffix (lastName d)).1
          (splitStemSuffix (lastName d)).2 (numPaths fs + 1) 1 := by
      simp [unique_destination_path, h]
    rw [hu, heq]
    exact hfr
  · have hf : pexists fs d = false := by simpa using h
    have hu : unique_destination_path fs d = d := by
      simp [unique_destination_path, hf]
    rw [hu]
    exact hf

/-- Helper: the final segment of a one-segment extension. -/
theorem lastName_concat (l : FPath) (a : String) :
    lastName (l ++ [a]) = a := by
  unfold lastName
  rw [List.getLastD_concat]

/-- Helper: `unique_destination_path` keeps the parent directory and
returns the original or a disambiguated name. -/
theorem unique_destination_path_parent (fs : FS) (d : FPath)
    (h : d ≠ []) :
    ∃ nm, unique_destination_path fs d = d.dropLast ++ [nm] ∧
      nmShape nm (lastName d) := by
  by_cases hex : pexists fs d = true
  · obtain ⟨j, hij, heq⟩ := probeFrom_shape fs d.dropLast
      (splitStemSuffix (lastName d)).1 (splitStemSuffix (lastName d)).2
      (numPaths fs + 1) 1
    refine ⟨(splitStemSuffix (lastName d)).1 ++ " (" ++ decRepr j ++ ")" ++
      (splitStemSuffix (lastName d)).2, ?_, Or.inr ⟨j, hij, rfl⟩⟩
    have hu : unique_destination_path fs d =
        probeFrom fs d.dropLast (splitStemSuffix (lastName d)).1
          (splitStemSuffix (lastName d)).2 (numPaths fs + 1) 1 := by
      simp [unique_destination_path, hex]
    rw [hu, heq]
    rfl
  · have hf : pexists fs d = false := by simpa using hex
    refine ⟨lastName d, ?_, Or.inl rfl⟩
    have hu : unique_destination_path fs d = d := by
      simp [unique_destination_path, hf]
    rw [hu, dropLast_append_lastName h]

/-- Helper: the destination path the relocation loop computes is
destination-shaped when the year/month environment is in `datetime`
range. -/
theorem relocDest_shape (env : Env) (opts : SortOptions) (fd : FileData)
    (hYM : envYMBounded env) (fs1 : FS) (src : FPath) :
    ∃ nm, unique_destination_path fs1 (relocDestDir env opts fd ++
        [lastName src]) =
      opts.base_dir ++ [padZ 4 (relocYM env opts fd).1,
        padZ 2 (relocYM env opts fd).2, nm] ∧
      nmShape nm (lastName src) ∧
      destShaped opts.base_dir (opts.base_dir ++
        [padZ 4 (relocYM env opts fd).1,
         padZ 2 (relocYM env opts fd).2, nm]) := by
  obtain ⟨h1, h2, h3, h4⟩ :=
    hYM (if opts.use_ctime then fd.ctime else fd.mtime)
  obtain ⟨nm, heq, hshape⟩ := unique_destination_path_parent fs1
    (relocDestDir env opts fd ++ [lastName src]) (by simp)
  rw [List.dropLast_concat] at heq
  rw [lastName_concat] at hshape
  have hy4 : (relocYM env opts fd).1 < 10 ^ 4 := by
    have : (10 : Nat) ^ 4 = 10000 := by norm_num
    unfold relocYM
    omega
  have hm2 : (relocYM env opts fd).2 < 10 ^ 2 := by
    have : (10 : Nat) ^ 2 = 100 := by norm_num
    unfold relocYM
    omega
  refine ⟨nm, ?_, hshape, ?_⟩
  · rw [heq]
    unfold relocDestDir
    simp
  · exact ⟨padZ 4 (relocYM env opts fd).1, padZ 2 (relocYM env opts fd).2,
      nm, rfl,
      padZ_length (decRepr_length_le (by norm_num) hy4),
      padZ_all_digits _ _,
      padZ_length (decRepr_length_le (by norm_num) hm2),
      padZ_all_digits _ _⟩

/-- Helper: the successful arm of `processFile`, written out. -/
theorem processFile_ok_eq (env : Env) (opts : SortOptions) (st : SState)
    (src : FPath) (fd : FileData)
    (hout : env.fileOutcome src = FileOutcome.ok)
    (hfd : lookupFile st.fs src = some fd) :
    processFile env opts st src =
      (if opts.copy_no_backup then
        ⟨insertFile (mkdirParents st.fs (relocDestDir env opts fd))
            (unique_destination_path
              (mkdirParents st.fs (relocDestDir env opts fd))
              (relocDestDir env opts fd ++ [lastName src])) fd,
          st.moved + 1, st.errors,
          st.logs ++ ["Copied: " ++ lastName src ++ " -> " ++
            padZ 4 (relocYM env opts fd).1 ++ "/" ++
            padZ 2 (relocYM env opts fd).2 ++ "/"]⟩
      else
        ⟨insertFile (removeFile
              (mkdirParents st.fs (relocDestDir env opts fd)) src)
            (unique_destination_path
              (mkdirParents st.fs (relocDestDir env opts fd))
              (relocDestDir env opts fd ++ [lastName src])) fd,
          st.moved + 1, st.errors,
          st.logs ++ ["Moved: " ++ lastName src ++ " -> " ++
            padZ 4 (relocYM env opts fd).1 ++ "/" ++
            padZ 2 (relocYM env opts fd).2 ++ "/"]⟩) := by
  unfold processFile
  rw [hout, hfd]
  rfl

/-- Helper: the missing-source arm of `processFile` under an `ok`
outcome. -/
theorem processFile_ok_none_eq (env : Env) (opts : SortOptions)
    (st : SState) (src : FPath)
    (hout : env.fileOutcome src = FileOutcome.ok)
    (hfd : lookupFile st.fs src = none) :
    processFile env opts st src =
      ⟨st.fs, st.moved, st.errors + 1,
        st.logs ++ ["Error moving " ++ lastName src ++ ": " ++
          format_exception fileNotFoundExn]⟩ := by
  unfold processFile
  rw [hout, hfd]

/-- Helper: the missing-source arm of `processFile` under a `moveFail`
outcome. -/
theorem processFile_moveFail_none_eq (env : Env) (opts : SortOptions)
    (st : SState) (src : FPath) (e : Exn)
    (hout : env.fileOutcome src = FileOutcome.moveFail e)
    (hfd : lookupFile st.fs src = none) :
    processFile env opts st src =
      ⟨st.fs, st.moved, st.errors + 1,
        st.logs ++ ["Error moving " ++ lastName src ++ ": " ++
          format_exception fileNotFoundExn]⟩ := by
  unfold processFile
  rw [hout, hfd]

/-- Helper: `processFile` only ever grows the set of directories. -/
theorem processFile_dirs_mono (env : Env) (opts : SortOptions)
    (st : SState) (src : FPath) {d : FPath} (hd : d ∈ st.fs.dirs) :
    d ∈ (processFile env opts st src).fs.dirs := by
  cases hout : env.fileOutcome src with
  | statFail e =>
    rw [processFile_statFail env opts st src e hout]
    exact hd
  | moveFail e =>
    cases hfd : lookupFile st.fs src with
    | none =>
      rw [processFile_moveFail_none_eq env opts st src e hout hfd]
      exact hd
    | some fd =>
      rw [processFile_moveFail env opts st src e fd hout hfd]
      exact mkdirParents_dirs_mono _ hd
  | ok =>
    cases hfd : lookupFile st.fs src with
    | none =>
      rw [processFile_ok_none_eq env opts st src hout hfd]
      exact hd
    | some fd =>
      rw [processFile_ok_eq env opts st src fd hout hfd]
      split <;> exact mkdirParents_dirs_mono _ hd

/-- Helper: `processFile` only ever appends to the log. -/
theorem processFile_logs_mono (env : Env) (opts : SortOptions)
    (st : SState) (src : FPath) :
    ∃ tail, (processFile env opts st src).logs = st.logs ++ tail := by
  cases hout : env.fileOutcome src with
  | statFail e =>
    rw [processFile_statFail env opts st src e hout]
    exact ⟨_, rfl⟩
  | moveFail e =>
    cases hfd : lookupFile st.fs src with
    | none =>
      rw [processFile_moveFail_none_eq env opts st src e hout hfd]
      exact ⟨_, rfl⟩
    | some fd =>
      rw [processFile_moveFail env opts st src e fd hout hfd]
      exact ⟨_, rfl⟩
  | ok =>
    cases hfd : lookupFile st.fs src with
    | none =>
      rw [processFile_ok_none_eq env opts st src hout hfd]
      exact ⟨_, rfl⟩
    | some fd =>
      rw [processFile_ok_eq env opts st src fd hout hfd]
      split <;> exact ⟨_, rfl⟩

/-- Helper: an existing file other than the processed source stays
present with unchanged metadata. -/
theorem processFile_lookup_stable (env : Env) (opts : SortOptions)
    (st : SState) (src : FPath) {q : FPath}
    (hq : isFile st.fs q = true) (hne : q ≠ src) :
    lookupFile (processFile env opts st src).fs q = lookupFile st.fs q := by
  cases hout : env.fileOutcome src with
  | statFail e =>
    rw [processFile_statFail env opts st src e hout]
  | moveFail e =>
    cases hfd : lookupFile st.fs src with
    | none =>
      rw [processFile_moveFail_none_eq env opts st src e hout hfd]
    | some fd =>
      rw [processFile_moveFail env opts st src e fd hout hfd]
      exact lookupFile_mkdirParents st.fs _ q
  | ok =>
    cases hfd : lookupFile st.fs src with
    | none =>
      rw [processFile_ok_none_eq env opts st src hout hfd]
    | some fd =>
      rw [processFile_ok_eq env opts st src fd hout hfd]
      have hfree : pexists (mkdirParents st.fs (relocDestDir env opts fd))
          (unique_destination_path
            (mkdirParents st.fs (relocDestDir env opts fd))
            (relocDestDir env opts fd ++ [lastName src])) = false :=
        unique_destination_path_free _ _
      have hqfile : isFile (mkdirParents st.fs (relocDestDir env opts fd))
          q = true := by
        rw [isFile_mkdirParents]
        exact hq
      have hqdest : q ≠ unique_destination_path
          (mkdirParents st.fs (relocDestDir env opts fd))
          (relocDestDir env opts fd ++ [lastName src]) := by
        intro hcon
        rw [← hcon] at hfree
        unfold pexists at hfree
        rw [Bool.or_eq_false_iff] at hfree
        rw [hqfile] at hfree
        exact Bool.true_eq_false.mp hfree.1
      split
      · show lookupFile (insertFile _ _ _) q = _
        rw [lookupFile_insertFile_ne _ _ _ hqdest,
          lookupFile_mkdirParents]
      · show lookupFile (insertFile _ _ _) q = _
        rw [lookupFile_insertFile_ne _ _ _ hqdest,
          lookupFile_removeFile_ne _ _ hne, lookupFile_mkdirParents]

/-- Helper: an existing file other than the processed source stays a
file. -/
theorem processFile_isFile_stable (env : Env) (opts : SortOptions)
    (st : SState) (src : FPath) {q : FPath}
    (hq : isFile st.fs q = true) (hne : q ≠ src) :
    isFile (processFile env opts st src).fs q = true := by
  rw [isFile_eq_isSome_lookupFile,
    processFile_lookup_stable env opts st src hq hne,
    ← isFile_eq_isSome_lookupFile]
  exact hq

/-- Helper: a non-file that is not destination-shaped stays absent. -/
theorem processFile_notFile_stable (env : Env) (opts : SortOptions)
    (st : SState) (src : FPath) {q : FPath} (hYM : envYMBounded env)
    (hq : isFile st.fs q = false) (hnd : ¬ destShaped opts.base_dir q) :
    isFile (processFile env opts st src).fs q = false := by
  cases hout : env.fileOutcome src with
  | statFail e =>
    rw [processFile_statFail env opts st src e hout]
    exact hq
  | moveFail e =>
    cases hfd : lookupFile st.fs src with
    | none =>
      rw [processFile_moveFail_none_eq env opts st src e hout hfd]
      exact hq
    | some fd =>
      rw [processFile_moveFail env opts st src e fd hout hfd]
      show isFile (mkdirParents _ _) q = false
      rw [isFile_mkdirParents]
      exact hq
  | ok =>
    cases hfd : lookupFile st.fs src with
    | none =>
      rw [processFile_ok_none_eq env opts st src hout hfd]
      exact hq
    | some fd =>
      obtain ⟨nm, hdest, -, hshape⟩ := relocDest_shape env opts fd hYM
        (mkdirParents st.fs (relocDestDir env opts fd)) src
      have hqdest : q ≠ unique_destination_path
          (mkdirParents st.fs (relocDestDir env opts fd))
          (relocDestDir env opts fd ++ [lastName src]) := by
        rw [hdest]
        intro hcon
        exact hnd (hcon ▸ hshape)
      rw [processFile_ok_eq env opts st src fd hout hfd]
      split
      · show isFile (insertFile _ _ _) q = false
        rw [isFile_insertFile_ne _ _ _ hqdest, isFile_mkdirParents]
        exact hq
      · show isFile (insertFile _ _ _) q = false
        rw [isFile_insertFile_ne _ _ _ hqdest]
        by_cases hqsrc : q = src
        · subst hqsrc
          exact isFile_removeFile_self _ q
        · rw [isFile_removeFile_ne _ _ hqsrc, isFile_mkdirParents]
          exact hq

/-- Helper: in move mode a successfully relocated source file is gone. -/
theorem processFile_ok_move_removes (env : Env) (opts : SortOptions)
    (st : SState) (src : FPath) (fd : FileData)
    (hmove : opts.copy_no_backup = false) (hYM : envYMBounded env)
    (hout : env.fileOutcome src = FileOutcome.ok)
    (hfd : lookupFile st.fs src = some fd)
    (hsrcOK : candOK opts.base_dir src) :
    isFile (processFile env opts st src).fs src = false := by
  obtain ⟨nm, hdest, -, hshape⟩ := relocDest_shape env opts fd hYM
    (mkdirParents st.fs (relocDestDir env opts fd)) src
  rw [processFile_ok_eq env opts st src fd hout hfd, if_neg (by simp [hmove])]
  show isFile (insertFile _ _ _) src = false
  have hne : src ≠ unique_destination_path
      (mkdirParents st.fs (relocDestDir env opts fd))
      (relocDestDir env opts fd ++ [lastName src]) := by
    rw [hdest]
    exact candOK_ne_destShaped hsrcOK hshape
  rw [isFile_insertFile_ne _ _ _ hne]
  exact isFile_removeFile_self _ src

/-- Helper: a successfully relocated file exists at its destination
`base/YYYY/MM/name-or-disambiguated-name` right after its own step. -/
theorem processFile_ok_dest (env : Env) (opts : SortOptions)
    (st : SState) (src : FPath) (fd : FileData) (hYM : envYMBounded env)
    (hout : env.fileOutcome src = FileOutcome.ok)
    (hfd : lookupFile st.fs src = some fd) :
    ∃ nm, nmShape nm (lastName src) ∧
      destShaped opts.base_dir (opts.base_dir ++
        [padZ 4 (relocYM env opts fd).1,
         padZ 2 (relocYM env opts fd).2, nm]) ∧
      isFile (processFile env opts st src).fs
        (opts.base_dir ++ [padZ 4 (relocYM env opts fd).1,
          padZ 2 (relocYM env opts fd).2, nm]) = true := by
  obtain ⟨nm, hdest, hnm, hshape⟩ := relocDest_shape env opts fd hYM
    (mkdirParents st.fs (relocDestDir env opts fd)) src
  refine ⟨nm, hnm, hshape, ?_⟩
  rw [processFile_ok_eq env opts st src fd hout hfd]
  split
  · show isFile (insertFile _ _ _) _ = true
    rw [← hdest]
    exact isFile_insertFile_self _ _ fd
  · show isFile (insertFile _ _ _) _ = true
    rw [← hdest]
    exact isFile_insertFile_self _ _ fd

/-- Helper: a missing direct child of the base directory stays missing
through a relocation step (destinations lie two levels deeper). -/
theorem processFile_child_stable (env : Env) (opts : SortOptions)
    (st : SState) (src : FPath) {q : FPath}
    (hbase : q.dropLast = opts.base_dir)
    (hqf : isFile st.fs q = false) :
    isFile (processFile env opts st src).fs q = false := by
  cases hout : env.fileOutcome src with
  | statFail e =>
    rw [processFile_statFail env opts st src e hout]
    exact hqf
  | moveFail e =>
    cases hfd : lookupFile st.fs src with
    | none =>
      rw [processFile_moveFail_none_eq env opts st src e hout hfd]
      exact hqf
    | some fd =>
      rw [processFile_moveFail env opts st src e fd hout hfd]
      show isFile (mkdirParents _ _) q = false
      rw [isFile_mkdirParents]
      exact hqf
  | ok =>
    cases hfd : lookupFile st.fs src with
    | none =>
      rw [processFile_ok_none_eq env opts st src hout hfd]
      exact hqf
    | some fd =>
      obtain ⟨nm, hdest, -⟩ := unique_destination_path_parent
        (mkdirParents st.fs (relocDestDir env opts fd))
        (relocDestDir env opts fd ++ [lastName src]) (by simp)
      rw [List.dropLast_concat] at hdest
      have hqdest : q ≠ unique_destination_path
          (mkdirParents st.fs (relocDestDir env opts fd))
          (relocDestDir env opts fd ++ [lastName src]) := by
        intro hcon
        have h1 : q.dropLast = relocDestDir env opts fd := by
          rw [hcon, hdest, List.dropLast_concat]
        have h2 : (relocDestDir env opts fd).length =
            opts.base_dir.length + 2 := by
          unfold relocDestDir
          simp
        rw [hbase] at h1
        have := congrArg List.length h1
        omega
      rw [processFile_ok_eq env opts st src fd hout hfd]
      split
      · show isFile (insertFile _ _ _) q = false
        rw [isFile_insertFile_ne _ _ _ hqdest, isFile_mkdirParents]
        exact hqf
      · show isFile (insertFile _ _ _) q = false
        rw [isFile_insertFile_ne _ _ _ hqdest]
        by_cases hqsrc : q = src
        · subst hqsrc
          exact isFile_removeFile_self _ q
        · rw [isFile_removeFile_ne _ _ hqsrc, isFile_mkdirParents]
          exact hqf

/-- Helper: the backup folder name carries the literal prefix. -/
theorem startsWithStr_stamp (t : String) :
    startsWithStr ("FolderChronicle Backup " ++ t)
      "FolderChronicle Backup" = true := by
  unfold startsWithStr
  rw [String.data_append]
  rw [List.take_append_of_le_length (by decide)]
  decide

/-- Helper: for a candidate source the backup-relative path is its path
below the base directory, and in particular nonempty. -/
theorem relOf_of_candOK {base src : FPath} (hsrc : candOK base src) :
    relOf base src = src.drop base.length ∧ relOf base src ≠ [] := by
  obtain ⟨htake, hlen, -, -⟩ := hsrc
  have hrel : relativeTo base src = some (src.drop base.length) := by
    unfold relativeTo
    rw [if_pos htake]
  constructor
  · unfold relOf
    rw [hrel]
  · unfold relOf
    rw [hrel]
    simp only []
    intro hc
    have := congrArg List.length hc
    simp at this
    omega

/-- Helper: a backup destination never coincides with a candidate: its
first segment below the base carries the backup-folder prefix, which
pruning forbids for candidates. -/
theorem backup_dest_ne_cand {base : FPath} {bname : String}
    (hb : startsWithStr bname "FolderChronicle Backup" = true)
    {src q : FPath} (hsrc : candOK base src) (hq : candOK base q) :
    q ≠ (base ++ [bname]) ++ relOf base src := by
  intro hcon
  obtain ⟨hrel, hrelne⟩ := relOf_of_candOK hsrc
  obtain ⟨-, -, -, hnob⟩ := hq
  have hdrop : q.drop base.length = bname :: relOf base src := by
    rw [hcon, List.append_assoc, List.drop_left]
    rfl
  have hmem : bname ∈ (q.drop base.length).dropLast := by
    rw [hdrop]
    match hr : relOf base src with
    | [] => exact absurd hr hrelne
    | r0 :: rt => simp
  have := hnob bname hmem
  rw [hb] at this
  exact Bool.true_eq_false.mp this

/-- Helper: a backup destination is never a direct child of the base
directory (it lies at least two levels deeper). -/
theorem backup_dest_ne_child {base : FPath} {bname : String} {src q : FPath}
    (hsrc : candOK base src) (hq : q.dropLast = base) :
    q ≠ (base ++ [bname]) ++ relOf base src := by
  intro hcon
  obtain ⟨-, hrelne⟩ := relOf_of_candOK hsrc
  have h1 := congrArg List.length hq
  have h2 := congrArg List.length hcon
  rw [List.length_dropLast] at h1
  simp only [List.length_append, List.length_cons, List.length_nil] at h2
  have h3 : 1 ≤ (relOf base src).length := by
    cases hr : relOf base src with
    | nil => exact absurd hr hrelne
    | cons a t => simp
  omega

/-- Helper: the failing arm of `backupStep`. -/
theorem backupStep_fail_eq (env : Env) (base bRoot : FPath) (st : BState)
    (src : FPath) (e : Exn) (h : env.backupOutcome src = some e) :
    backupStep env base bRoot st src =
      ⟨mkdirParents st.fs ((bRoot ++ relOf base src).dropLast),
        st.errors + 1,
        st.logs ++ ["Backup error " ++ fpathStr src ++ ": " ++
          format_exception e]⟩ := by
  simp only [backupStep, h]

/-- Helper: the missing-source arm of `backupStep`. -/
theorem backupStep_notfound_eq (env : Env) (base bRoot : FPath)
    (st : BState) (src : FPath) (h : env.backupOutcome src = none)
    (hfd : lookupFile (mkdirParents st.fs
      ((bRoot ++ relOf base src).dropLast)) src = none) :
    backupStep env base bRoot st src =
      ⟨mkdirParents st.fs ((bRoot ++ relOf base src).dropLast),
        st.errors + 1,
        st.logs ++ ["Backup error " ++ fpathStr src ++ ": " ++
          format_exception fileNotFoundExn]⟩ := by
  simp only [backupStep, h, hfd]

/-- Helper: the copying arm of `backupStep`. -/
theorem backupStep_copy_eq (env : Env) (base bRoot : FPath) (st : BState)
    (src : FPath) (fd : FileData) (h : env.backupOutcome src = none)
    (hfd : lookupFile (mkdirParents st.fs
      ((bRoot ++ relOf base src).dropLast)) src = some fd) :
    backupStep env base bRoot st src =
      ⟨insertFile (mkdirParents st.fs
          ((bRoot ++ relOf base src).dropLast))
        (bRoot ++ relOf base src) fd,
        st.errors, st.logs⟩ := by
  simp only [backupStep, h, hfd]

/-- Helper: one backup step changes no candidate lookup, no direct-child
presence, and only grows the directories. -/
theorem backupStep_stable (env : Env) (base : FPath) (bname : String)
    (hb : startsWithStr bname "FolderChronicle Backup" = true)
    (st : BState) (src : FPath) (hsrc : candOK base src) :
    (∀ q, candOK base q →
      lookupFile (backupStep env base (base ++ [bname]) st src).fs q =
        lookupFile st.fs q) ∧
    (∀ d ∈ st.fs.dirs,
      d ∈ (backupStep env base (base ++ [bname]) st src).fs.dirs) ∧
    (∀ q, q.dropLast = base →
      isFile (backupStep env base (base ++ [bname]) st src).fs q =
        isFile st.fs q) := by
  cases hout : env.backupOutcome src with
  | some e =>
    rw [backupStep_fail_eq env base _ st src e hout]
    refine ⟨?_, ?_, ?_⟩
    · intro q _
      exact lookupFile_mkdirParents st.fs _ q
    · intro d hd
      exact mkdirParents_dirs_mono _ hd
    · intro q _
      exact isFile_mkdirParents st.fs _ q
  | none =>
    cases hfd : lookupFile (mkdirParents st.fs
        (((base ++ [bname]) ++ relOf base src).dropLast)) src with
    | none =>
      rw [backupStep_notfound_eq env base _ st src hout hfd]
      refine ⟨?_, ?_, ?_⟩
      · intro q _
        exact lookupFile_mkdirParents st.fs _ q
      · intro d hd
        exact mkdirParents_dirs_mono _ hd
      · intro q _
        exact isFile_mkdirParents st.fs _ q
    | some fd =>
      rw [backupStep_copy_eq env base _ st src fd hout hfd]
      refine ⟨?_, ?_, ?_⟩
      · intro q hq
        show lookupFile (insertFile _ _ _) q = _
        rw [lookupFile_insertFile_ne _ _ _ (backup_dest_ne_cand hb hsrc hq),
          lookupFile_mkdirParents]
      · intro d hd
        show d ∈ (insertFile _ _ _).dirs
        rw [insertFile_dirs]
        exact mkdirParents_dirs_mono _ hd
      · intro q hq
        show isFile (insertFile _ _ _) q = _
        rw [isFile_insertFile_ne _ _ _ (backup_dest_ne_child hsrc hq),
          isFile_mkdirParents]

/-- Helper: the whole backup phase changes no candidate lookup, no
direct-child presence, and only grows the directories. -/
theorem foldl_backupStep_stable (env : Env) (base : FPath) (bname : String)
    (hb : startsWithStr bname "FolderChronicle Backup" = true) :
    ∀ (files : List FPath) (st : BState),
      (∀ f ∈ files, candOK base f) →
      (∀ q, candOK base q →
        lookupFile ((files.foldl
          (backupStep env base (base ++ [bname])) st).fs) q =
          lookupFile st.fs q) ∧
      (∀ d ∈ st.fs.dirs,
        d ∈ ((files.foldl (backupStep env base (base ++ [bname])) st).fs).dirs) ∧
      (∀ q, q.dropLast = base →
        isFile ((files.foldl
          (backupStep env base (base ++ [bname])) st).fs) q =
          isFile st.fs q) := by
  intro files
  induction files with
  | nil => intro st _; exact ⟨fun q _ => rfl, fun d hd => hd, fun q _ => rfl⟩
  | cons f rest ih =>
    intro st hall
    have hf := hall f (by simp)
    have hrest : ∀ g ∈ rest, candOK base g := fun g hg =>
      hall g (List.mem_cons_of_mem f hg)
    obtain ⟨ih1, ih2, ih3⟩ :=
      ih (backupStep env base (base ++ [bname]) st f) hrest
    obtain ⟨s1, s2, s3⟩ := backupStep_stable env base bname hb st f hf
    refine ⟨?_, ?_, ?_⟩
    · intro q hq
      rw [List.foldl_cons, ih1 q hq, s1 q hq]
    · intro d hd
      rw [List.foldl_cons]
      exact ih2 d (s2 d hd)
    · intro q hq
      rw [List.foldl_cons, ih3 q hq, s3 q hq]

/-- Helper: `alreadySorted` rejects single-segment paths. -/
theorem alreadySorted_singleton (x : String) :
    alreadySorted [x] = false := rfl

/-- Helper: every candidate `gather_files` returns satisfies the
candidate shape facts. -/
theorem gather_files_candOK (fs : FS) (base : FPath) :
    ∀ mode, ∀ p ∈ gather_files fs base mode, candOK base p := by
  intro mode p hp
  unfold gather_files at hp
  cases mode with
  | false =>
    rw [if_neg (by simp)] at hp
    have h1 := (List.mem_filter.mp hp).1
    unfold iterdir at h1
    have h2 := (List.mem_filter.mp h1).2
    have h3 : p ≠ [] ∧ p.dropLast = base := by simpa using h2
    have hp2 : p = base ++ [lastName p] := by
      conv_lhs => rw [← dropLast_append_lastName h3.1]
      rw [h3.2]
    refine ⟨?_, ?_, ?_, ?_⟩
    · conv_lhs => rw [hp2]
      exact List.take_left base _
    · have := congrArg List.length hp2
      simp at this
      omega
    · conv_lhs => rw [hp2, List.drop_left]
      exact alreadySorted_singleton _
    · intro t ht
      rw [hp2, List.drop_left, List.dropLast_single] at ht
      simp at ht
  | true =>
    rw [if_pos rfl] at hp
    have h1 := (List.mem_filter.mp hp).1
    obtain ⟨hkeep, hne, mid, hmid, hmidok⟩ :=
      walkGather_mem (maxDirDepth fs + 1) base p h1
    have hp2 : p = base ++ (mid ++ [lastName p]) := by
      conv_lhs => rw [← dropLast_append_lastName hne]
      rw [hmid, List.append_assoc]
    have htake : p.take base.length = base := by
      conv_lhs => rw [hp2]
      exact List.take_left base _
    have hdrop : p.drop base.length = mid ++ [lastName p] := by
      conv_lhs => rw [hp2]
      exact List.drop_left base _
    refine ⟨htake, ?_, ?_, ?_⟩
    · have := congrArg List.length hp2
      simp at this
      omega
    · unfold keepFile relativeTo at hkeep
      rw [if_pos htake] at hkeep
      simp only [Bool.not_eq_true'] at hkeep
      exact hkeep
    · rw [hdrop, List.dropLast_concat]
      exact hmidok

/-- Helper: the file-children of a directory, as a filtered map. -/
theorem childFilesList_eq (fs : FS) (cur : FPath) :
    childFilesList fs cur = (fs.files.map Prod.fst).filter
      (fun p => decide (p ≠ [] ∧ p.dropLast = cur)) := by
  unfold childFilesList
  induction fs.files with
  | nil => rfl
  | cons e t ih =>
    rw [List.filterMap_cons]
    by_cases hc : e.1 ≠ [] ∧ e.1.dropLast = cur
    · rw [if_pos hc, ih, List.map_cons, List.filter_cons]
      simp [hc]
    · rw [if_neg hc, ih, List.map_cons, List.filter_cons]
      simp [hc]

/-- Helper: the directory-children of a directory, as a filter. -/
theorem childDirsList_eq (fs : FS) (cur : FPath) :
    childDirsList fs cur = fs.dirs.filter
      (fun d => decide (d ≠ [] ∧ d.dropLast = cur)) := by
  unfold childDirsList
  induction fs.dirs with
  | nil => rfl
  | cons d t ih =>
    rw [List.filterMap_cons, List.filter_cons]
    by_cases hc : d ≠ [] ∧ d.dropLast = cur
    · rw [if_pos hc]
      rw [ih]
      simp [hc]
    · rw [if_neg hc]
      rw [ih]
      simp [hc]

/-- Helper: every walk result extends the walk root properly. -/
theorem walkGather_take {fs : FS} {base : FPath} {fuel : Nat}
    {cur p : FPath} (hp : p ∈ walkGather fs base fuel cur) :
    p.take cur.length = cur ∧ cur.length < p.length := by
  obtain ⟨-, hne, mid, hmid, -⟩ := walkGather_mem fuel cur p hp
  have hp2 : p = cur ++ (mid ++ [lastName p]) := by
    conv_lhs => rw [← dropLast_append_lastName hne]
    rw [hmid, List.append_assoc]
  constructor
  · conv_lhs => rw [hp2]
    exact List.take_left cur _
  · have := congrArg List.length hp2
    simp at this
    omega

/-- Helper: a flat map over pairwise-disjoint nodup pieces is nodup. -/
theorem flatMap_nodup {α β : Type} [DecidableEq β] (f : α → List β) :
    ∀ ds : List α, ds.Nodup → (∀ d ∈ ds, (f d).Nodup) →
      (∀ d ∈ ds, ∀ d' ∈ ds, d ≠ d' → ∀ x ∈ f d, x ∉ f d') →
      (ds.flatMap f).Nodup := by
  intro ds
  induction ds with
  | nil => intro _ _ _; simp
  | cons d t ih =>
    intro hnd hall hdisj
    rw [List.flatMap_cons, List.nodup_append]
    refine ⟨hall d (by simp), ?_, ?_⟩
    · exact ih (List.nodup_cons.mp hnd).2
        (fun g hg => hall g (List.mem_cons_of_mem d hg))
        (fun g hg g' hg' hne => hdisj g (List.mem_cons_of_mem d hg)
          g' (List.mem_cons_of_mem d hg') hne)
    · intro x hx hx2
      obtain ⟨d', hd', hxd'⟩ := List.mem_flatMap.mp hx2
      have hdd' : d ≠ d' := by
        intro hc
        subst hc
        exact (List.nodup_cons.mp hnd).1 hd'
      exact hdisj d (by simp) d' (List.mem_cons_of_mem d hd') hdd' x hx hxd'

/-- Helper: the walk returns each file at most once on a well-formed
filesystem state. -/
theorem walkGather_nodup (fs : FS) (base : FPath) (hWF : fsWF fs) :
    ∀ fuel cur, (walkGather fs base fuel cur).Nodup := by
  have hsplit := List.nodup_append.mp hWF
  intro fuel
  induction fuel with
  | zero => intro cur; simp [walkGather]
  | succ f ih =>
    intro cur
    rw [walkGather]
    rw [List.nodup_append]
    refine ⟨?_, ?_, ?_⟩
    · apply List.Nodup.filter
      rw [childFilesList_eq]
      exact hsplit.1.filter _
    · apply flatMap_nodup
      · apply List.Nodup.filter
        rw [childDirsList_eq]
        exact hsplit.2.1.filter _
      · intro d _
        exact ih d
      · intro d hd d' hd' hne x hx hx'
        have hdc : d ≠ [] ∧ d.dropLast = cur := by
          have hdm := (List.mem_filter.mp hd).1
          rw [childDirsList_eq] at hdm
          have := (List.mem_filter.mp hdm).2
          simpa using this
        have hdc' : d' ≠ [] ∧ d'.dropLast = cur := by
          have hdm := (List.mem_filter.mp hd').1
          rw [childDirsList_eq] at hdm
          have := (List.mem_filter.mp hdm).2
          simpa using this
        have hlen : d.length = cur.length + 1 := by
          have h1 := congrArg List.length hdc.2
          rw [List.length_dropLast] at h1
          have : 0 < d.length := List.length_pos.mpr hdc.1
          omega
        have hlen' : d'.length = cur.length + 1 := by
          have h1 := congrArg List.length hdc'.2
          rw [List.length_dropLast] at h1
          have : 0 < d'.length := List.length_pos.mpr hdc'.1
          omega
        have ht := (walkGather_take hx).1
        have ht' := (walkGather_take hx').1
        rw [hlen] at ht
        rw [hlen'] at ht'
        exact hne (ht ▸ ht' ▸ rfl)
    · intro x hx hx2
      have hxf := (List.mem_filter.mp hx).1
      have hxc : x ≠ [] ∧ x.dropLast = cur := by
        rw [childFilesList_eq] at hxf
        have := (List.mem_filter.mp hxf).2
        simpa using this
      have hxlen : x.length = cur.length + 1 := by
        have h1 := congrArg List.length hxc.2
        rw [List.length_dropLast] at h1
        have : 0 < x.length := List.length_pos.mpr hxc.1
        omega
      obtain ⟨d, hd, hxd⟩ := List.mem_flatMap.mp hx2
      have hdc : d ≠ [] ∧ d.dropLast = cur := by
        have hdm := (List.mem_filter.mp hd).1
        rw [childDirsList_eq] at hdm
        have := (List.mem_filter.mp hdm).2
        simpa using this
      have hdlen : d.length = cur.length + 1 := by
        have h1 := congrArg List.length hdc.2
        rw [List.length_dropLast] at h1
        have : 0 < d.length := List.length_pos.mpr hdc.1
        omega
      have := (walkGather_take hxd).2
      omega

/-- Helper: `gather_files` returns each candidate once on a well-formed
filesystem state. -/
theorem gather_files_nodup (fs : FS) (base : FPath) (hWF : fsWF fs) :
    ∀ mode, (gather_files fs base mode).Nodup := by
  intro mode
  unfold gather_files
  cases mode with
  | false =>
    rw [if_neg (by simp)]
    apply List.Nodup.filter
    unfold iterdir
    exact hWF.filter _
  | true =>
    rw [if_pos rfl]
    exact (walkGather_nodup fs base hWF _ _).filter _

/-- Helper: insertion never destroys a file. -/
theorem isFile_insertFile_of_isFile {fs : FS} {q : FPath}
    (h : isFile fs q = true) (p : FPath) (fd : FileData) :
    isFile (insertFile fs p fd) q = true := by
  by_cases hq : q = p
  · subst hq
    exact isFile_insertFile_self fs q fd
  · rw [isFile_insertFile_ne fs p fd hq]
    exact h

/-- Helper: a candidate is never destination-shaped. -/
theorem candOK_not_destShaped {base q : FPath} (h : candOK base q) :
    ¬ destShaped base q :=
  fun hd => candOK_ne_destShaped h hd rfl

/-- Helper: the relocation fold keeps a destination-shaped file. -/
theorem relocLoop_keep_destShaped (env : Env) (opts : SortOptions) :
    ∀ (rem : List FPath) (st : SState) (q : FPath),
      (∀ g ∈ rem, candOK opts.base_dir g) →
      destShaped opts.base_dir q → isFile st.fs q = true →
      isFile ((rem.foldl (processFile env opts) st).fs) q = true := by
  intro rem
  induction rem with
  | nil => intro st q _ _ h; exact h
  | cons g rest ih =>
    intro st q hall hq h
    rw [List.foldl_cons]
    refine ih _ q (fun g' hg' => hall g' (List.mem_cons_of_mem g hg')) hq ?_
    exact processFile_isFile_stable env opts st g h
      (Ne.symm (candOK_ne_destShaped (hall g (by simp)) hq))

/-- Helper: the relocation fold keeps a candidate-shaped path absent. -/
theorem relocLoop_keep_notFile (env : Env) (opts : SortOptions)
    (hYM : envYMBounded env) :
    ∀ (rem : List FPath) (st : SState) (q : FPath),
      candOK opts.base_dir q → isFile st.fs q = false →
      isFile ((rem.foldl (processFile env opts) st).fs) q = false := by
  intro rem
  induction rem with
  | nil => intro st q _ h; exact h
  | cons g rest ih =>
    intro st q hq h
    rw [List.foldl_cons]
    exact ih _ q hq
      (processFile_notFile_stable env opts st g hYM h
        (candOK_not_destShaped hq))

/-- Helper: the relocation fold keeps a file it never processes. -/
theorem relocLoop_keep_file_notin (env : Env) (opts : SortOptions) :
    ∀ (rem : List FPath) (st : SState) (q : FPath),
      q ∉ rem → isFile st.fs q = true →
      isFile ((rem.foldl (processFile env opts) st).fs) q = true := by
  intro rem
  induction rem with
  | nil => intro st q _ h; exact h
  | cons g rest ih =>
    intro st q hnin h
    rw [List.foldl_cons]
    refine ih _ q (fun hc => hnin (List.mem_cons_of_mem g hc)) ?_
    exact processFile_isFile_stable env opts st g h
      (fun hc => hnin (hc ▸ List.mem_cons_self g rest))

/-- Helper: the relocation fold only grows the directories. -/
theorem relocLoop_dirs_mono (env : Env) (opts : SortOptions) :
    ∀ (rem : List FPath) (st : SState) (d : FPath),
      d ∈ st.fs.dirs →
      d ∈ ((rem.foldl (processFile env opts) st).fs).dirs := by
  intro rem
  induction rem with
  | nil => intro st d h; exact h
  | cons g rest ih =>
    intro st d h
    rw [List.foldl_cons]
    exact ih _ d (processFile_dirs_mono env opts st g h)

/-- Helper: the relocation fold keeps every log line. -/
theorem relocLoop_logs_mono (env : Env) (opts : SortOptions) :
    ∀ (rem : List FPath) (st : SState) (x : String),
      x ∈ st.logs →
      x ∈ (rem.foldl (processFile env opts) st).logs := by
  intro rem
  induction rem with
  | nil => intro st x h; exact h
  | cons g rest ih =>
    intro st x h
    rw [List.foldl_cons]
    obtain ⟨tail, htail⟩ := processFile_logs_mono env opts st g
    exact ih _ x (htail ▸ List.mem_append.mpr (Or.inl h))

/-- Helper: intactness of the not-yet-processed candidates is preserved
by one relocation step. -/
theorem processFile_intact_step (env : Env) (opts : SortOptions)
    (fs0 : FS) (st : SState) (g : FPath) (rest : List FPath)
    (hnin : g ∉ rest)
    (hint : ∀ g' ∈ g :: rest,
      lookupFile st.fs g' = lookupFile fs0 g' ∧ isFile st.fs g' = true) :
    ∀ g' ∈ rest,
      lookupFile (processFile env opts st g).fs g' = lookupFile fs0 g' ∧
      isFile (processFile env opts st g).fs g' = true := by
  intro g' hg'
  have hgg' : g' ≠ g := fun hc => hnin (hc ▸ hg')
  obtain ⟨hl, hi⟩ := hint g' (List.mem_cons_of_mem g hg')
  refine ⟨?_, ?_⟩
  · rw [processFile_lookup_stable env opts st g hi hgg']
    exact hl
  · exact processFile_isFile_stable env opts st g hi hgg'

/-- Helper: folding `addDir` over a list establishes each listed
directory. -/
theorem foldl_addDir_mem :
    ∀ (l : List FPath) (fs : FS) (x : FPath), x ∈ l →
      x ∈ (l.foldl addDir fs).dirs := by
  intro l
  induction l with
  | nil => intro fs x hx; exact absurd hx (List.not_mem_nil x)
  | cons a t ih =>
    intro fs x hx
    rw [List.foldl_cons]
    rcases List.mem_cons.mp hx with hxa | hxt
    · subst hxa
      exact foldl_addDir_dirs_mono t (addDir fs x) x (addDir_mem_self fs x)
    · exact ih (addDir fs a) x hxt

/-- Helper: every candidate `gather_files` returns is a regular file of
the scanned state. -/
theorem gather_files_isFile (fs : FS) (base : FPath) (mode : Bool) :
    ∀ p ∈ gather_files fs base mode, isFile fs p = true := by
  intro p hp
  unfold gather_files at hp
  cases mode with
  | false =>
    rw [if_neg (by simp)] at hp
    exact (List.mem_filter.mp hp).2
  | true =>
    rw [if_pos rfl] at hp
    exact (List.mem_filter.mp hp).2

/-- Helper: non-recursive `gather_files` returns every direct regular
file child of the base directory. -/
theorem gather_nonrec_complete (fs : FS) (base : FPath) {q : FPath}
    (hne : q ≠ []) (hdrop : q.dropLast = base)
    (hfile : isFile fs q = true) :
    q ∈ gather_files fs base false := by
  unfold gather_files
  rw [if_neg (by simp)]
  refine List.mem_filter.mpr ⟨?_, hfile⟩
  unfold iterdir
  refine List.mem_filter.mpr ⟨?_, by simp [hne, hdrop]⟩
  refine List.mem_append.mpr (Or.inl ?_)
  obtain ⟨e, he, heq⟩ := List.any_eq_true.mp hfile
  have : e.1 = q := by simpa using heq
  exact this ▸ List.mem_map_of_mem Prod.fst he

/-- Helper: the loop of `sort_files` runs over the post-backup state. -/
theorem sortFilesCore_eq_fold (env : Env) (opts : SortOptions) (fs0 : FS)
    (hne : gather_files fs0 opts.base_dir opts.include_subdirs ≠ []) :
    sortFilesCore env opts fs0 =
      (gather_files fs0 opts.base_dir opts.include_subdirs).foldl
        (processFile env opts)
        ⟨(if opts.copy_no_backup then (⟨fs0, 0, []⟩ : BState)
          else backup_files env
            (gather_files fs0 opts.base_dir opts.include_subdirs)
            opts.base_dir fs0).fs,
          0,
          (if opts.copy_no_backup then (⟨fs0, 0, []⟩ : BState)
          else backup_files env
            (gather_files fs0 opts.base_dir opts.include_subdirs)
            opts.base_dir fs0).errors,
          (if opts.copy_no_backup then (⟨fs0, 0, []⟩ : BState)
          else backup_files env
            (gather_files fs0 opts.base_dir opts.include_subdirs)
            opts.base_dir fs0).logs⟩ := by
  unfold sortFilesCore
  rw [if_neg hne]

/-- Helper: `backup_files` as the fold it is. -/
theorem backup_files_eq_fold (env : Env) (files : List FPath)
    (base : FPath) (fs : FS) :
    backup_files env files base fs =
      files.foldl (backupStep env base
        (base ++ ["FolderChronicle Backup " ++ env.nowStamp])) ⟨fs, 0, []⟩ :=
  rfl

/-- Helper: at the start of the relocation loop every candidate is still
intact, whether or not a backup phase ran. -/
theorem loop_start_intact (env : Env) (opts : SortOptions) (fs0 : FS)
    (hall : ∀ g ∈ gather_files fs0 opts.base_dir opts.include_subdirs,
      candOK opts.base_dir g) :
    ∀ g ∈ gather_files fs0 opts.base_dir opts.include_subdirs,
      lookupFile (if opts.copy_no_backup then (⟨fs0, 0, []⟩ : BState)
        else backup_files env
          (gather_files fs0 opts.base_dir opts.include_subdirs)
          opts.base_dir fs0).fs g = lookupFile fs0 g ∧
      isFile (if opts.copy_no_backup then (⟨fs0, 0, []⟩ : BState)
        else backup_files env
          (gather_files fs0 opts.base_dir opts.include_subdirs)
          opts.base_dir fs0).fs g = true := by
  intro g hg
  have hgfile := gather_files_isFile fs0 opts.base_dir
    opts.include_subdirs g hg
  cases hc : opts.copy_no_backup with
  | true =>
    rw [if_pos rfl]
    exact ⟨rfl, hgfile⟩
  | false =>
    rw [if_neg (by simp)]
    rw [backup_files_eq_fold]
    obtain ⟨s1, -, -⟩ := foldl_backupStep_stable env opts.base_dir
      ("FolderChronicle Backup " ++ env.nowStamp) (startsWithStr_stamp _)
      (gather_files fs0 opts.base_dir opts.include_subdirs)
      ⟨fs0, 0, []⟩ hall
    have hl := s1 g (hall g hg)
    refine ⟨hl, ?_⟩
    rw [isFile_eq_isSome_lookupFile, hl, ← isFile_eq_isSome_lookupFile]
    exact hgfile

/-- Helper: a run over an empty candidate set returns the sentinel. -/
theorem sort_files_of_gather_nil (env : Env) (opts : SortOptions)
    (fs : FS) (hscan : env.scanFail = none)
    (hempty : gather_files fs opts.base_dir opts.include_subdirs = []) :
    sort_files env opts fs = Except.ok ⟨fs, 0, 0, ["No files found."]⟩ := by
  unfold sort_files
  rw [hscan]
  unfold sortFilesCore
  rw [hempty]
  rfl

/-- Helper: main relocation-loop invariant for C1: a candidate with a
succeeding outcome ends up at a `base/YYYY/MM` destination; in copy mode
its source survives, in move mode its source is gone. -/
theorem relocLoop_main (env : Env) (opts : SortOptions) (fs0 : FS)
    (hYM : envYMBounded env) :
    ∀ (rem : List FPath) (st : SState),
      rem.Nodup →
      (∀ g ∈ rem, candOK opts.base_dir g) →
      (∀ g ∈ rem,
        lookupFile st.fs g = lookupFile fs0 g ∧ isFile st.fs g = true) →
      ∀ f ∈ rem, env.fileOutcome f = FileOutcome.ok →
      ∃ nm fd, lookupFile fs0 f = some fd ∧ nmShape nm (lastName f) ∧
        isFile ((rem.foldl (processFile env opts) st).fs)
          (opts.base_dir ++ [padZ 4 (relocYM env opts fd).1,
            padZ 2 (relocYM env opts fd).2, nm]) = true ∧
        (opts.copy_no_backup = true →
          isFile ((rem.foldl (processFile env opts) st).fs) f = true) ∧
        (opts.copy_no_backup = false →
          isFile ((rem.foldl (processFile env opts) st).fs) f = false) := by
  intro rem
  induction rem with
  | nil => intro st _ _ _ f hf; exact absurd hf (List.not_mem_nil f)
  | cons g rest ih =>
    intro st hnd hall hint f hf hok
    have hgnin : g ∉ rest := (List.nodup_cons.mp hnd).1
    rcases List.mem_cons.mp hf with hfg | hfr
    · subst hfg
      obtain ⟨hl, hi⟩ := hint f (by simp)
      have hsome : ∃ fd, lookupFile st.fs f = some fd := by
        rw [isFile_eq_isSome_lookupFile] at hi
        exact Option.isSome_iff_exists.mp hi
      obtain ⟨fd, hfd⟩ := hsome
      obtain ⟨nm, hnm, hshape, hdest⟩ :=
        processFile_ok_dest env opts st f fd hYM hok hfd
      refine ⟨nm, fd, by rw [← hl]; exact hfd, hnm, ?_, ?_, ?_⟩
      · rw [List.foldl_cons]
        exact relocLoop_keep_destShaped env opts rest _ _
          (fun g' hg' => hall g' (List.mem_cons_of_mem f hg')) hshape hdest
      · intro hcopy
        rw [List.foldl_cons]
        have hstill : isFile (processFile env opts st f).fs f = true := by
          rw [processFile_ok_eq env opts st f fd hok hfd, if_pos hcopy]
          show isFile (insertFile _ _ _) f = true
          refine isFile_insertFile_of_isFile ?_ _ fd
          rw [isFile_mkdirParents]
          exact hi
        exact relocLoop_keep_file_notin env opts rest _ f hgnin hstill
      · intro hmove
        rw [List.foldl_cons]
        have hgone : isFile (processFile env opts st f).fs f = false :=
          processFile_ok_move_removes env opts st f fd hmove hYM hok hfd
            (hall f (by simp))
        exact relocLoop_keep_notFile env opts hYM rest _ f
          (hall f (by simp)) hgone
    · have hint' := processFile_intact_step env opts fs0 st g rest hgnin hint
      have := ih (processFile env opts st g)
        (List.nodup_cons.mp hnd).2
        (fun g' hg' => hall g' (List.mem_cons_of_mem g hg'))
        hint' f hfr hok
      rw [List.foldl_cons]
      exact this

/-- Helper: relocation-loop invariant for C9: in move mode with all
outcomes succeeding, no direct child of the base directory remains a
file after the loop. -/
theorem relocLoop_clears_children (env : Env) (opts : SortOptions)
    (fs0 : FS) (hYM : envYMBounded env)
    (hmove : opts.copy_no_backup = false) :
    ∀ (rem : List FPath) (st : SState),
      rem.Nodup →
      (∀ g ∈ rem, candOK opts.base_dir g) →
      (∀ g ∈ rem,
        lookupFile st.fs g = lookupFile fs0 g ∧ isFile st.fs g = true) →
      (∀ g ∈ rem, env.fileOutcome g = FileOutcome.ok) →
      (∀ q, q ≠ [] → q.dropLast = opts.base_dir →
        isFile st.fs q = true → q ∈ rem) →
      ∀ q, q ≠ [] → q.dropLast = opts.base_dir →
        isFile ((rem.foldl (processFile env opts) st).fs) q = false := by
  intro rem
  induction rem with
  | nil =>
    intro st _ _ _ _ hinv q hqne hq
    rw [List.foldl_nil]
    cases hfile : isFile st.fs q with
    | false => rfl
    | true => exact absurd (hinv q hqne hq hfile) (List.not_mem_nil q)
  | cons g rest ih =>
    intro st hnd hall hint hok hinv
    have hgnin : g ∉ rest := (List.nodup_cons.mp hnd).1
    obtain ⟨hl, hi⟩ := hint g (by simp)
    have hsome : ∃ fd, lookupFile st.fs g = some fd := by
      rw [isFile_eq_isSome_lookupFile] at hi
      exact Option.isSome_iff_exists.mp hi
    obtain ⟨fd, hfd⟩ := hsome
    have hggone : isFile (processFile env opts st g).fs g = false :=
      processFile_ok_move_removes env opts st g fd hmove hYM
        (hok g (by simp)) hfd (hall g (by simp))
    intro q hqne hq
    rw [List.foldl_cons]
    refine ih (processFile env opts st g)
      (List.nodup_cons.mp hnd).2
      (fun g' hg' => hall g' (List.mem_cons_of_mem g hg'))
      (processFile_intact_step env opts fs0 st g rest hgnin hint)
      (fun g' hg' => hok g' (List.mem_cons_of_mem g hg'))
      ?_ q hqne hq
    intro q' hq'ne hq' hq'file
    by_cases hq'g : q' = g
    · subst hq'g
      rw [hggone] at hq'file
      exact absurd hq'file (by simp)
    · have hbefore : isFile st.fs q' = true := by
        cases hb : isFile st.fs q' with
        | true => rfl
        | false =>
          have := processFile_child_stable env opts st g hq' hb
          rw [this] at hq'file
          exact absurd hq'file (by simp)
      rcases List.mem_cons.mp (hinv q' hq'ne hq' hbefore) with hc | hc
      · exact absurd hc hq'g
      · exact hc

/-- Helper: relocation-loop invariant for C10: a candidate whose move
step fails still gets its destination directory created, and the run
records the exact error line. -/
theorem relocLoop_moveFail (env : Env) (opts : SortOptions) (fs0 : FS) :
    ∀ (rem : List FPath) (st : SState),
      rem.Nodup →
      (∀ g ∈ rem, candOK opts.base_dir g) →
      (∀ g ∈ rem,
        lookupFile st.fs g = lookupFile fs0 g ∧ isFile st.fs g = true) →
      ∀ f ∈ rem, ∀ e, env.fileOutcome f = FileOutcome.moveFail e →
      ∃ fd, lookupFile fs0 f = some fd ∧
        (∀ x ∈ fpathInits (relocDestDir env opts fd),
          x ∈ ((rem.foldl (processFile env opts) st).fs).dirs) ∧
        ("Error moving " ++ lastName f ++ ": " ++ format_exception e) ∈
          (rem.foldl (processFile env opts) st).logs := by
  intro rem
  induction rem with
  | nil => intro st _ _ _ f hf; exact absurd hf (List.not_mem_nil f)
  | cons g rest ih =>
    intro st hnd hall hint f hf e hout
    have hgnin : g ∉ rest := (List.nodup_cons.mp hnd).1
    rcases List.mem_cons.mp hf with hfg | hfr
    · subst hfg
      obtain ⟨hl, hi⟩ := hint f (by simp)
      have hsome : ∃ fd, lookupFile st.fs f = some fd := by
        rw [isFile_eq_isSome_lookupFile] at hi
        exact Option.isSome_iff_exists.mp hi
      obtain ⟨fd, hfd⟩ := hsome
      refine ⟨fd, by rw [← hl]; exact hfd, ?_, ?_⟩
      · intro x hx
        rw [List.foldl_cons]
        refine relocLoop_dirs_mono env opts rest _ _ ?_
        rw [processFile_moveFail env opts st f e fd hout hfd]
        show x ∈ (mkdirParents st.fs (relocDestDir env opts fd)).dirs
        exact foldl_addDir_mem _ st.fs x hx
      · rw [List.foldl_cons]
        refine relocLoop_logs_mono env opts rest _ _ ?_
        rw [processFile_moveFail env opts st f e fd hout hfd]
        show _ ∈ st.logs ++ _
        exact List.mem_append.mpr (Or.inr (by simp))
    · have hint' := processFile_intact_step env opts fs0 st g rest hgnin hint
      have := ih (processFile env opts st g)
        (List.nodup_cons.mp hnd).2
        (fun g' hg' => hall g' (List.mem_cons_of_mem g hg'))
        hint' f hfr e hout
      rw [List.foldl_cons]
      exact this

/-- Helper: a nonempty path is among its own prefixes. -/
theorem self_mem_fpathInits {p : FPath} (h : p ≠ []) :
    p ∈ fpathInits p := by
  unfold fpathInits
  have hlen : 0 < p.length := List.length_pos.mpr h
  refine List.mem_map.mpr ⟨p.length - 1, ?_, ?_⟩
  · exact List.mem_range.mpr (by omega)
  · have : p.length - 1 + 1 = p.length := by omega
    rw [this, List.take_length]

/-- C1: a candidate with a succeeding relocation ends up, after the run,
at a destination `base/YYYY/MM/<name or disambiguated name>` where the
4-character year and 2-character month come from the local-time
interpretation of the file's creation time (if the flag is set) or
modification time; in copy mode the source survives and the backup stage
is skipped entirely (the run equals the bare relocation fold); in move
mode the source is no longer present at its original path. -/
theorem sort_files_relocation (env : Env) (opts : SortOptions) (fs0 : FS)
    (r : SState) (f : FPath)
    (hWF : fsWF fs0) (hYM : envYMBounded env)
    (hscan : env.scanFail = none)
    (hr : sort_files env opts fs0 = Except.ok r)
    (hf : f ∈ gather_files fs0 opts.base_dir opts.include_subdirs)
    (hok : env.fileOutcome f = FileOutcome.ok) :
    ∃ nm fd, lookupFile fs0 f = some fd ∧ nmShape nm (lastName f) ∧
      (padZ 4 (relocYM env opts fd).1).length = 4 ∧
      (padZ 2 (relocYM env opts fd).2).length = 2 ∧
      isFile r.fs (opts.base_dir ++ [padZ 4 (relocYM env opts fd).1,
        padZ 2 (relocYM env opts fd).2, nm]) = true ∧
      (opts.copy_no_backup = true → isFile r.fs f = true ∧
        r = (gather_files fs0 opts.base_dir opts.include_subdirs).foldl
          (processFile env opts) ⟨fs0, 0, 0, []⟩) ∧
      (opts.copy_no_backup = false → isFile r.fs f = false) := by
  have hne := List.ne_nil_of_mem hf
  have hrc : r = sortFilesCore env opts fs0 := by
    unfold sort_files at hr
    rw [hscan] at hr
    exact (Except.ok.inj hr).symm
  subst hrc
  have hfold := sortFilesCore_eq_fold env opts fs0 hne
  have hall := fun g hg =>
    gather_files_candOK fs0 opts.base_dir opts.include_subdirs g hg
  have hnd := gather_files_nodup fs0 opts.base_dir hWF opts.include_subdirs
  have hint := loop_start_intact env opts fs0 hall
  obtain ⟨nm, fd, hfd, hnm, hdest, hcp, hmv⟩ := relocLoop_main env opts fs0
    hYM (gather_files fs0 opts.base_dir opts.include_subdirs)
    ⟨(if opts.copy_no_backup then (⟨fs0, 0, []⟩ : BState)
      else backup_files env
        (gather_files fs0 opts.base_dir opts.include_subdirs)
        opts.base_dir fs0).fs,
      0,
      (if opts.copy_no_backup then (⟨fs0, 0, []⟩ : BState)
      else backup_files env
        (gather_files fs0 opts.base_dir opts.include_subdirs)
        opts.base_dir fs0).errors,
      (if opts.copy_no_backup then (⟨fs0, 0, []⟩ : BState)
      else backup_files env
        (gather_files fs0 opts.base_dir opts.include_subdirs)
        opts.base_dir fs0).logs⟩
    hnd hall hint f hf hok
  obtain ⟨hy1, hy2, hm1, hm2⟩ :=
    hYM (if opts.use_ctime then fd.ctime else fd.mtime)
  have hy4 : (relocYM env opts fd).1 < 10 ^ 4 := by
    have : (10 : Nat) ^ 4 = 10000 := by norm_num
    unfold relocYM
    omega
  have hmm2 : (relocYM env opts fd).2 < 10 ^ 2 := by
    have : (10 : Nat) ^ 2 = 100 := by norm_num
    unfold relocYM
    omega
  refine ⟨nm, fd, hfd, hnm,
    padZ_length (decRepr_length_le (by norm_num) hy4),
    padZ_length (decRepr_length_le (by norm_num) hmm2), ?_, ?_, ?_⟩
  · rw [hfold]
    exact hdest
  · intro hc
    refine ⟨by rw [hfold]; exact hcp hc, ?_⟩
    rw [hfold]
    simp [hc]
  · intro hc
    rw [hfold]
    exact hmv hc

/-- Witness for C1: in a move-mode run over one file with modification
time mapping to 2023/01, the relocation claim's conclusion holds. -/
theorem sort_files_relocation_witness :
    ∃ nm fd, lookupFile exFSone ["b", "f.txt"] = some fd ∧
      nmShape nm (lastName ["b", "f.txt"]) ∧
      (padZ 4 (relocYM exEnvOk exOptsMove fd).1).length = 4 ∧
      (padZ 2 (relocYM exEnvOk exOptsMove fd).2).length = 2 ∧
      isFile (sortFilesCore exEnvOk exOptsMove exFSone).fs
        (exOptsMove.base_dir ++
          [padZ 4 (relocYM exEnvOk exOptsMove fd).1,
           padZ 2 (relocYM exEnvOk exOptsMove fd).2, nm]) = true ∧
      (exOptsMove.copy_no_backup = true →
        isFile (sortFilesCore exEnvOk exOptsMove exFSone).fs
          ["b", "f.txt"] = true ∧
        sortFilesCore exEnvOk exOptsMove exFSone =
          (gather_files exFSone exOptsMove.base_dir
            exOptsMove.include_subdirs).foldl
            (processFile exEnvOk exOptsMove) ⟨exFSone, 0, 0, []⟩) ∧
      (exOptsMove.copy_no_backup = false →
        isFile (sortFilesCore exEnvOk exOptsMove exFSone).fs
          ["b", "f.txt"] = false) :=
  sort_files_relocation exEnvOk exOptsMove exFSone
    (sortFilesCore exEnvOk exOptsMove exFSone) ["b", "f.txt"]
    (by unfold fsWF; decide)
    (by
      intro t
      exact ⟨(by norm_num : (1 : Nat) ≤ 2023),
        (by norm_num : (2023 : Nat) ≤ 9999),
        (by norm_num : (1 : Nat) ≤ 1), (by norm_num : (1 : Nat) ≤ 12)⟩)
    rfl rfl (by decide) rfl

/-- C9: after a fully successful non-recursive move-mode run, an
immediate second run over the same base directory reports the nothing-
to-do outcome with zero counts and the sentinel log, because only direct
regular-file children are scanned and they have all been moved into
dated subfolders. -/
theorem sort_files_idempotent (env env2 : Env) (opts : SortOptions)
    (fs0 : FS) (r : SState)
    (hWF : fsWF fs0) (hYM : envYMBounded env)
    (hnr : opts.include_subdirs = false)
    (hmv : opts.copy_no_backup = false)
    (hscan : env.scanFail = none) (hscan2 : env2.scanFail = none)
    (hr : sort_files env opts fs0 = Except.ok r)
    (hall : ∀ g ∈ gather_files fs0 opts.base_dir opts.include_subdirs,
      env.fileOutcome g = FileOutcome.ok) :
    sort_files env2 opts r.fs =
      Except.ok ⟨r.fs, 0, 0, ["No files found."]⟩ := by
  have hrc : r = sortFilesCore env opts fs0 := by
    unfold sort_files at hr
    rw [hscan] at hr
    exact (Except.ok.inj hr).symm
  by_cases hfe :
      gather_files fs0 opts.base_dir opts.include_subdirs = []
  · have : sortFilesCore env opts fs0 = ⟨fs0, 0, 0, ["No files found."]⟩ := by
      unfold sortFilesCore
      rw [hfe]
      rfl
    rw [hrc, this]
    exact sort_files_of_gather_nil env2 opts fs0 hscan2
      (by rw [hnr] at hfe ⊢; exact hfe)
  · have hfold := sortFilesCore_eq_fold env opts fs0 hfe
    have hcand := fun g hg =>
      gather_files_candOK fs0 opts.base_dir opts.include_subdirs g hg
    have hnd := gather_files_nodup fs0 opts.base_dir hWF
      opts.include_subdirs
    have hint := loop_start_intact env opts fs0 hcand
    have hchild : ∀ q, q ≠ [] → q.dropLast = opts.base_dir →
        isFile r.fs q = false := by
      rw [hrc, hfold]
      refine relocLoop_clears_children env opts fs0 hYM hmv
        (gather_files fs0 opts.base_dir opts.include_subdirs) _
        hnd hcand hint hall ?_
      intro q hqne hq hqfile
      have hfs0 : isFile fs0 q = true := by
        rw [if_neg (by simp [hmv])] at hqfile
        rw [backup_files_eq_fold] at hqfile
        obtain ⟨-, -, s3⟩ := foldl_backupStep_stable env opts.base_dir
          ("FolderChronicle Backup " ++ env.nowStamp)
          (startsWithStr_stamp _)
          (gather_files fs0 opts.base_dir opts.include_subdirs)
          ⟨fs0, 0, []⟩ hcand
        rw [s3 q hq] at hqfile
        exact hqfile
      rw [hnr]
      exact gather_nonrec_complete fs0 opts.base_dir hqne hq hfs0
    have hsecond :
        gather_files r.fs opts.base_dir opts.include_subdirs = [] := by
      rw [hnr]
      unfold gather_files
      rw [if_neg (by simp)]
      rw [List.filter_eq_nil_iff]
      intro q hq
      have hqprop := (List.mem_filter.mp hq).2
      have hqc : q ≠ [] ∧ q.dropLast = opts.base_dir := by
        simpa using hqprop
      rw [hchild q hqc.1 hqc.2]
      simp
    exact sort_files_of_gather_nil env2 opts r.fs hscan2 hsecond

/-- Witness for C9: rerunning the engine immediately after a successful
single-file move-mode run yields the sentinel nothing-to-do result. -/
theorem sort_files_idempotent_witness :
    sort_files exEnvOk exOptsMove
      (sortFilesCore exEnvOk exOptsMove exFSone).fs =
    Except.ok ⟨(sortFilesCore exEnvOk exOptsMove exFSone).fs, 0, 0,
      ["No files found."]⟩ :=
  sort_files_idempotent exEnvOk exEnvOk exOptsMove exFSone
    (sortFilesCore exEnvOk exOptsMove exFSone)
    (by unfold fsWF; decide)
    (by
      intro t
      exact ⟨(by norm_num : (1 : Nat) ≤ 2023),
        (by norm_num : (2023 : Nat) ≤ 9999),
        (by norm_num : (1 : Nat) ≤ 1), (by norm_num : (1 : Nat) ≤ 12)⟩)
    rfl rfl rfl rfl rfl (fun g _ => rfl)

/-- C10: relocation is not atomic: for a candidate whose final move or
copy step fails, the run records the exact error line, yet the
destination directory `base/YYYY/MM` (with every ancestor) created just
before the failing step remains on the filesystem after the run. -/
theorem sort_files_moveFail_dir_persists (env : Env) (opts : SortOptions)
    (fs0 : FS) (r : SState) (f : FPath) (e : Exn)
    (hWF : fsWF fs0) (hYM : envYMBounded env)
    (hscan : env.scanFail = none)
    (hr : sort_files env opts fs0 = Except.ok r)
    (hf : f ∈ gather_files fs0 opts.base_dir opts.include_subdirs)
    (hout : env.fileOutcome f = FileOutcome.moveFail e) :
    ∃ fd, lookupFile fs0 f = some fd ∧
      relocDestDir env opts fd ∈ r.fs.dirs ∧
      (∀ x ∈ fpathInits (relocDestDir env opts fd), x ∈ r.fs.dirs) ∧
      ("Error moving " ++ lastName f ++ ": " ++ format_exception e) ∈
        r.logs := by
  have hne := List.ne_nil_of_mem hf
  have hrc : r = sortFilesCore env opts fs0 := by
    unfold sort_files at hr
    rw [hscan] at hr
    exact (Except.ok.inj hr).symm
  subst hrc
  have hfold := sortFilesCore_eq_fold env opts fs0 hne
  have hcand := fun g hg =>
    gather_files_candOK fs0 opts.base_dir opts.include_subdirs g hg
  have hnd := gather_files_nodup fs0 opts.base_dir hWF opts.include_subdirs
  have hint := loop_start_intact env opts fs0 hcand
  obtain ⟨fd, hfd, hdirs, hlog⟩ := relocLoop_moveFail env opts fs0
    (gather_files fs0 opts.base_dir opts.include_subdirs)
    ⟨(if opts.copy_no_backup then (⟨fs0, 0, []⟩ : BState)
      else backup_files env
        (gather_files fs0 opts.base_dir opts.include_subdirs)
        opts.base_dir fs0).fs,
      0,
      (if opts.copy_no_backup then (⟨fs0, 0, []⟩ : BState)
      else backup_files env
        (gather_files fs0 opts.base_dir opts.include_subdirs)
        opts.base_dir fs0).errors,
      (if opts.copy_no_backup then (⟨fs0, 0, []⟩ : BState)
      else backup_files env
        (gather_files fs0 opts.base_dir opts.include_subdirs)
        opts.base_dir fs0).logs⟩
    hnd hcand hint f hf e hout
  refine ⟨fd, hfd, ?_, ?_, ?_⟩
  · rw [hfold]
    exact hdirs (relocDestDir env opts fd)
      (self_mem_fpathInits (by simp [relocDestDir]))
  · intro x hx
    rw [hfold]
    exact hdirs x hx
  · rw [hfold]
    exact hlog

/-- Witness for C10: a run whose single file fails at the move step
leaves `b/2023/01` on the filesystem and logs the exact error line. -/
theorem sort_files_moveFail_dir_persists_witness :
    ∃ fd, lookupFile exFSone ["b", "f.txt"] = some fd ∧
      relocDestDir exEnvMoveFail exOptsMove fd ∈
        (sortFilesCore exEnvMoveFail exOptsMove exFSone).fs.dirs ∧
      (∀ x ∈ fpathInits (relocDestDir exEnvMoveFail exOptsMove fd),
        x ∈ (sortFilesCore exEnvMoveFail exOptsMove exFSone).fs.dirs) ∧
      ("Error moving " ++ lastName ["b", "f.txt"] ++ ": " ++
        format_exception ⟨"OSError", "disk full"⟩) ∈
        (sortFilesCore exEnvMoveFail exOptsMove exFSone).logs :=
  sort_files_moveFail_dir_persists exEnvMoveFail exOptsMove exFSone
    (sortFilesCore exEnvMoveFail exOptsMove exFSone) ["b", "f.txt"]
    ⟨"OSError", "disk full"⟩
    (by unfold fsWF; decide)
    (by
      intro t
      exact ⟨(by norm_num : (1 : Nat) ≤ 2023),
        (by norm_num : (2023 : Nat) ≤ 9999),
        (by norm_num : (1 : Nat) ≤ 1), (by norm_num : (1 : Nat) ≤ 12)⟩)
    rfl rfl (by decide) rfl

end FolderChronicle
